import Mathlib

/-!
# Verification of the biz_metadata linter (tools/biz-metadata-linter/biz_metadata_linter.py)

A shallow embedding of the linter's core: row normalization, the type-expression
grammar, the TypeRef resolver, and the rule checks, together with theorems that
settle the behavioural claims about them.

Modelling conventions:
* Python strings are Lean `String`s; the character-level work is done on
  `List Char` via `String.data`.
* Python `str.strip()` / regex `\s` are modelled over the ASCII whitespace set
  (space, tab, newline, carriage return, vertical tab, form feed); the linter's
  inputs are CSV/Markdown cell texts, for which this is the relevant set.
* Python regexes are compiled to executable predicates. `re.match` with a
  trailing `$` also succeeds just before a single trailing newline; the
  `withDollarB`/`withDollarOpt` wrappers reproduce that.
* `TypeResolver._resolve_single_ref` and `TypeResolver.resolve` return a pair
  `(Optional[ResolvedType], Optional[Violation])` in which always exactly one
  side is populated (resolution outcome), except that `resolve` returns
  `(None, None)` for an empty expression.  We model the outcome as
  `Except Violation ResolvedType`, and `resolve` as an `Option` thereof
  (`none` = the `(None, None)` case).
* Python `dict` is modelled as a function to `Option`, assignment as pointwise
  update; `set` membership tests become `List.any`.
-/

namespace BizMeta

/-- ASCII whitespace, the characters stripped by `str.strip()` on the linter's
input texts. -/
def isPySpace (c : Char) : Bool :=
  c = ' ' || c = '\t' || c = '\n' || c = '\r' || c = Char.ofNat 11 || c = Char.ofNat 12

/-- Drop leading whitespace (`str.lstrip()`). -/
def stripLeftL (l : List Char) : List Char := l.dropWhile isPySpace

/-- Drop trailing whitespace (`str.rstrip()`). -/
def stripRightL (l : List Char) : List Char := (l.reverse.dropWhile isPySpace).reverse

/-- `str.strip()` on character lists. -/
def stripList (l : List Char) : List Char := stripRightL (stripLeftL l)

/-- `str.strip()`. -/
def pyStrip (s : String) : String := ⟨stripList s.data⟩

/-- ASCII `str.lower()` on one character. -/
def lowerChar (c : Char) : Char :=
  if 'A' ≤ c ∧ c ≤ 'Z' then Char.ofNat (c.toNat + 32) else c

/-- `str.lower()` (ASCII fragment). -/
def pyLower (s : String) : String := ⟨s.data.map lowerChar⟩

/-- `str.split(sep)` for a one-character separator: always returns
`count sep + 1` pieces, empty pieces included. -/
def splitChar (sep : Char) : List Char → List (List Char)
  | [] => [[]]
  | c :: rest =>
    match splitChar sep rest with
    | [] => [[]]
    | p :: ps => if c = sep then [] :: p :: ps else (c :: p) :: ps

/-- `sep.join(...)` for a one-character separator. -/
def joinC (sep : Char) : List (List Char) → List Char
  | [] => []
  | [p] => p
  | p :: q :: ps => p ++ sep :: joinC sep (q :: ps)

/-- `" -> ".join(...)`, used in resolver diagnostics. -/
def joinArrow : List String → String
  | [] => ""
  | [s] => s
  | s :: t :: ts => s ++ " -> " ++ joinArrow (t :: ts)

-- ----------------------------
-- Regexes of the source, as executable matchers
-- ----------------------------

/-- `[a-z]`. -/
def isLowerAl (c : Char) : Bool := 'a' ≤ c && c ≤ 'z'

/-- `[a-z0-9_]`. -/
def isSnakeCh (c : Char) : Bool := isLowerAl c || ('0' ≤ c && c ≤ '9') || c = '_'

/-- `[a-z][a-z0-9_]*` — the core of `RE_TYPE_ATOM`. -/
def atomB : List Char → Bool
  | [] => false
  | c :: rest => isLowerAl c && rest.all isSnakeCh

/-- `[a-z][a-z0-9_]*(\.[a-z][a-z0-9_]*)*` — a dot-path of snake-case atoms,
the core of `RE_CODE` and of the groups of `RE_OBJECT` / `RE_TYPEREF`. -/
def dotPathB (l : List Char) : Bool := (splitChar '.' l).all atomB

/-- In `re.match` a trailing `$` also matches just before one final newline. -/
def withDollarB (core : List Char → Bool) (l : List Char) : Bool :=
  core l ||
    (match l.getLast? with
     | some c => c = '\n' && core l.dropLast
     | none => false)

/-- `$`-tolerant variant for matchers that extract a group. -/
def withDollarOpt (core : List Char → Option String) (l : List Char) : Option String :=
  match core l with
  | some g => some g
  | none =>
    match l.getLast? with
    | some c => if c = '\n' then core l.dropLast else none
    | none => none

/-- Strip a literal from the front of a character list, or fail. -/
def dropPre : List Char → List Char → Option (List Char)
  | [], l => some l
  | _ :: _, [] => none
  | p :: ps, x :: xs => if x = p then dropPre ps xs else none

/-- Split a final literal character from the back, or fail. -/
def endGt (rest : List Char) : Option (List Char) :=
  match rest.getLast? with
  | some c => if c = '>' then some rest.dropLast else none
  | none => none

/-- Core of `RE_TYPEREF = ^ref:([a-z][a-z0-9_]*(\.[a-z][a-z0-9_]*)*)$`,
returning the captured code. -/
def typerefCore (l : List Char) : Option String :=
  match dropPre "ref:".data l with
  | some rest => if dotPathB rest then some ⟨rest⟩ else none
  | none => none

/-- `RE_TYPEREF.match(s)`, returning group 1. -/
def typerefGroup (s : String) : Option String := withDollarOpt typerefCore s.data

/-- Core of `RE_OBJECT = ^json<object:(dot-path)>$`, returning the schema ref. -/
def objectCore (l : List Char) : Option String :=
  match dropPre "json<object:".data l with
  | some rest =>
    match endGt rest with
    | some mid => if dotPathB mid then some ⟨mid⟩ else none
    | none => none
  | none => none

/-- `RE_OBJECT.match(s)`, returning group 1. -/
def reObjectGroup (s : String) : Option String := withDollarOpt objectCore s.data

/-- `atom(\s*\|\s*atom)+` — the union alternative inside `RE_ARRAY`:
two or more snake atoms separated by `|` with whitespace allowed around the
bars but not at the ends of the whole expression. -/
def unionAtomsB (T : List Char) : Bool :=
  match splitChar '|' T with
  | [] => false
  | [_] => false
  | p :: ps =>
    (p :: ps).all (fun q => atomB (stripList q)) &&
      stripLeftL p = p &&
      (match (p :: ps).getLast? with
       | some q => stripRightL q = q
       | none => false)

/-- Core of `RE_ARRAY = ^json<array:(union|atom|object)>$` (the literal
`object` alternative is subsumed by the atom alternative). -/
def arrayCore (l : List Char) : Bool :=
  match dropPre "json<array:".data l with
  | some rest =>
    match endGt rest with
    | some mid => unionAtomsB mid || atomB mid
    | none => false
  | none => false

/-- `RE_ARRAY.match(s)` as a Boolean. -/
def reArrayB (s : String) : Bool := withDollarB arrayCore s.data

/-- `RE_CODE.match(s)` as a Boolean. -/
def reCodeB (s : String) : Bool := withDollarB dotPathB s.data

/-- `RE_TYPE_ATOM.match(s)` as a Boolean. -/
def reTypeAtomB (s : String) : Bool := withDollarB atomB s.data

/-- Core of `RE_IDENTIFIER_CODE = ^.+\.id\.[a-z][a-z0-9_]*$`: the code ends in
`.id.<atom>`, with a non-empty newline-free part before it (`.` in a Python
regex matches anything except `\n`). -/
def identCodeCore (l : List Char) : Bool :=
  match (splitChar '.' l).reverse with
  | b :: i :: rest =>
    if rest = [] then false
    else
      atomB b && i = "id".data &&
        (let A := joinC '.' rest.reverse
         decide (A ≠ []) && A.all (fun c => c ≠ '\n'))
  | _ => false

/-- `RE_IDENTIFIER_CODE.match(s)` as a Boolean. -/
def identCodeB (s : String) : Bool := withDollarB identCodeCore s.data

-- ----------------------------
-- Constants (align with spec)
-- ----------------------------

def OBJECT_TYPES : List String := ["entity", "event", "relation", "document", "feature"]
def DATA_CLASSES : List String := ["attribute", "metric", "text", "object", "array", "identifier"]
def STATUS : List String := ["active", "deprecated"]
def SOURCE : List String := ["manual", "auto_mine", "api_sync"]
def SCALAR_TYPES : List String := ["string", "int", "decimal", "boolean", "date", "datetime"]
def IDENTIFIER_ALLOWED : List String := ["string", "int", "int|string"]

-- ----------------------------
-- Models
-- ----------------------------

/-- Normalized view of one input row (the debugging-only `raw` dict of the
Python dataclass carries no behaviour and is omitted). -/
structure Row where
  tenant_id : String
  version : Int
  code : String
  name : String
  description : String
  object_type : String
  parent_code : String
  data_class : String
  value_type : String
  unit : String
  status : String
  source : String
deriving DecidableEq, Repr

/-- One gate violation record. -/
structure Violation where
  severity : String
  rule_id : String
  message : String
  tenant_id : String
  code : String
  field : String := ""
  value : String := ""
deriving DecidableEq, Repr

/-- A single apostrophe character, for building the diagnostic texts that
contain quoted fragments. -/
def sq : String := String.singleton (Char.ofNat 39)

-- ----------------------------
-- Parsing (`_norm`, `int()`, `_row_from_raw`)
-- ----------------------------

/-- `_norm`: collapse blank-equivalent markers to the empty string, else trim.
`none` is Python `None` (missing key). -/
def pyNorm (v : Option String) : String :=
  match v with
  | none => ""
  | some s =>
    if pyLower (pyStrip s) ∈ (["none", "null", "nan"] : List String) then ""
    else pyStrip s

/-- `[0-9]` digit value. -/
def digitVal (c : Char) : Option Nat :=
  if '0' ≤ c ∧ c ≤ '9' then some (c.toNat - 48) else none

/-- Digit tail of Python `int()`: digits with single underscores strictly
between digits. -/
def goDigits (acc : Nat) : List Char → Option Nat
  | [] => some acc
  | c :: rest =>
    if c = '_' then
      match rest with
      | [] => none
      | d :: rest2 =>
        match digitVal d with
        | some v => goDigits (acc * 10 + v) rest2
        | none => none
    else
      match digitVal c with
      | some v => goDigits (acc * 10 + v) rest
      | none => none

/-- Unsigned part of Python `int()`. -/
def parseDigits : List Char → Option Nat
  | [] => none
  | c :: rest =>
    match digitVal c with
    | some v => goDigits v rest
    | none => none

/-- Python `int(s)` on an already-stripped decimal string (`ValueError` is
`none`). -/
def pyInt (s : String) : Option Int :=
  match s.data with
  | '+' :: rest => (parseDigits rest).map Int.ofNat
  | '-' :: rest => (parseDigits rest).map (fun n => -(n : Int))
  | l => (parseDigits l).map Int.ofNat

/-- `dict.get` over the raw record. -/
def rawGet (raw : List (String × String)) (k : String) : Option String :=
  (raw.find? (fun p => p.1 = k)).map Prod.snd

/-- `_row_from_raw`: total conversion of a raw record into a `Row`. -/
def rowFromRaw (raw : List (String × String)) : Row :=
  let versionS := pyNorm (rawGet raw "version")
  let versionI : Int :=
    if versionS = "" then 0
    else match pyInt versionS with
      | some n => n
      | none => 0
  { tenant_id := pyNorm (rawGet raw "tenant_id")
    version := versionI
    code := pyNorm (rawGet raw "code")
    name := pyNorm (rawGet raw "name")
    description := pyNorm (rawGet raw "description")
    object_type := pyNorm (rawGet raw "object_type")
    parent_code := pyNorm (rawGet raw "parent_code")
    data_class := pyNorm (rawGet raw "data_class")
    value_type := pyNorm (rawGet raw "value_type")
    unit := pyNorm (rawGet raw "unit")
    status := pyNorm (rawGet raw "status")
    source := pyNorm (rawGet raw "source") }

-- ----------------------------
-- Type parsing & ref resolution
-- ----------------------------

/-- `ResolvedType`: outcome of expanding a TypeRef. -/
structure ResolvedType where
  raw : String
  resolved : String
  canonical_code : String
  chain : List String
deriving DecidableEq, Repr

instance {α β : Type} [DecidableEq α] [DecidableEq β] : DecidableEq (Except α β)
  | Except.error a, Except.error b =>
    if h : a = b then isTrue (congrArg Except.error h)
    else isFalse (fun hc => h (Except.error.inj hc))
  | Except.error _, Except.ok _ => isFalse (fun hc => Except.noConfusion hc)
  | Except.ok _, Except.error _ => isFalse (fun hc => Except.noConfusion hc)
  | Except.ok a, Except.ok b =>
    if h : a = b then isTrue (congrArg Except.ok h)
    else isFalse (fun hc => h (Except.ok.inj hc))

/-- `TypeResolver`: the `(tenant_id, code) -> Row` index plus the maximum
expansion depth. -/
structure Resolver where
  idx : String × String → Option Row
  maxDepth : Nat

/-- `TypeResolver.split_union_terms`: split a union expression on `|`,
stripping each term; fails when `|` is absent or any side is blank. -/
def splitUnionTerms (s : String) : Option (List String) :=
  if s.data.any (fun c => c = '|') then
    if ((splitChar '|' s.data).map (fun l => (⟨stripList l⟩ : String))).any
        (fun p => p = "") then none
    else some ((splitChar '|' s.data).map (fun l => (⟨stripList l⟩ : String)))
  else none

/-- `"|".join(ts)`. -/
def joinBarStr (ts : List String) : String := ⟨joinC '|' (ts.map String.data)⟩

/-- `TypeResolver.canonical_union`. -/
def canonicalUnion (s : String) : String :=
  match splitUnionTerms s with
  | none => s
  | some ts => joinBarStr ts

/-- The `while True` loop of `TypeResolver._resolve_single_ref`.  The Python
loop increments a step counter and fails once `depth > max_depth`; here `fuel`
is the number of steps still allowed (`fuel = max_depth + 1 - depth`), so
`fuel = 0` is exactly the `TYPE_REF_TOO_DEEP` exit. -/
def resolveRefAux (res : Resolver) (tenantId vt : String) :
    Nat → List String → String → Except Violation ResolvedType
  | 0, seen, current =>
    .error ⟨"ERROR", "TYPE_REF_TOO_DEEP",
      "type_ref depth exceeded (>" ++ toString res.maxDepth ++ "): " ++
        joinArrow (seen ++ [current]),
      tenantId, current, "value_type", vt⟩
  | fuel + 1, seen, current =>
    if seen.contains current then
      .error ⟨"ERROR", "TYPE_REF_CYCLE",
        "type_ref cycle detected: " ++ joinArrow (seen ++ [current]),
        tenantId, current, "value_type", vt⟩
    else
      match res.idx (tenantId, current) with
      | none =>
        .error ⟨"ERROR", "TYPE_REF_NOT_FOUND",
          "type_ref target not found: " ++ current,
          tenantId, current, "value_type", vt⟩
      | some row =>
        if row.object_type ≠ "feature" then
          .error ⟨"ERROR", "TYPE_REF_TARGET_NOT_FEATURE",
            "type_ref target must be object_type=feature: " ++ current ++
              " (" ++ row.object_type ++ ")",
            tenantId, current, "value_type", vt⟩
        else if row.status ≠ "active" then
          .error ⟨"ERROR", "TYPE_REF_TARGET_NOT_ACTIVE",
            "type_ref target must be status=active: " ++ current ++
              " (" ++ row.status ++ ")",
            tenantId, current, "value_type", vt⟩
        else if pyStrip row.value_type = "" then
          .error ⟨"ERROR", "TYPE_REF_TARGET_NO_TYPE",
            "type_ref target has empty value_type: " ++ current,
            tenantId, current, "value_type", vt⟩
        else
          match typerefGroup (pyStrip row.value_type) with
          | some nxt => resolveRefAux res tenantId vt fuel (seen ++ [current]) nxt
          | none => .ok ⟨vt, pyStrip row.value_type, row.code, seen ++ [current]⟩

/-- `TypeResolver._resolve_single_ref` (the local `vt = value_type.strip()` is
inlined as `pyStrip valueType`). -/
def resolveSingleRef (res : Resolver) (tenantId valueType : String) :
    Except Violation ResolvedType :=
  match typerefGroup (pyStrip valueType) with
  | none => .ok ⟨pyStrip valueType, pyStrip valueType, "", []⟩
  | some target => resolveRefAux res tenantId (pyStrip valueType) res.maxDepth [] target

/-- Flattening step of `TypeResolver.resolve`: a substituted term that is
itself a union is expanded into its constituents. -/
def flattenTerms (ts : List String) : List String :=
  ts.flatMap (fun term =>
    match splitUnionTerms term with
    | none => [pyStrip term]
    | some inner => inner.map pyStrip)

/-- Order-preserving dedup of `TypeResolver.resolve`, skipping blanks. -/
def dedupTerms : List String → List String → List String
  | [], _ => []
  | t :: rest, seen =>
    let t2 := pyStrip t
    if t2 = "" || seen.contains t2 then dedupTerms rest seen
    else t2 :: dedupTerms rest (t2 :: seen)

/-- The per-term loop of `TypeResolver.resolve` over a union: resolve each
reference term (short-circuiting on failure, re-tagging the violation with the
whole unresolved expression `vt`), pass other terms through, then flatten,
dedup and rejoin. -/
def resolveUnionGo (res : Resolver) (tenant vt : String) :
    List String → List String → Except Violation ResolvedType
  | [], acc =>
    .ok ⟨vt, canonicalUnion (joinBarStr (dedupTerms (flattenTerms acc) [])), "", []⟩
  | term :: rest, acc =>
    if (typerefGroup term).isSome then
      match resolveSingleRef res tenant term with
      | .error vio =>
        .error ⟨vio.severity, vio.rule_id, vio.message, vio.tenant_id, vio.code,
          vio.field, vt⟩
      | .ok rt => resolveUnionGo res tenant vt rest (acc ++ [pyStrip rt.resolved])
    else resolveUnionGo res tenant vt rest (acc ++ [term])

/-- `TypeResolver.resolve`; `none` is the `(None, None)` "empty value_type"
outcome. -/
def resolve (res : Resolver) (tenantId valueType : String) :
    Option (Except Violation ResolvedType) :=
  if pyStrip valueType = "" then none
  else if (typerefGroup (pyStrip valueType)).isSome then
    some (resolveSingleRef res tenantId (pyStrip valueType))
  else
    match splitUnionTerms (pyStrip valueType) with
    | some ts => some (resolveUnionGo res tenantId (pyStrip valueType) ts [])
    | none =>
      some (.ok ⟨pyStrip valueType, canonicalUnion (pyStrip valueType), "", []⟩)

/-- `is_valid_value_type_expr`: the Python function is a chain of early
`return True`s, i.e. a disjunction of its clauses. -/
def is_valid_value_type_expr (vtIn : String) : Bool :=
  SCALAR_TYPES.contains (canonicalUnion (pyStrip vtIn)) ||
    IDENTIFIER_ALLOWED.contains (canonicalUnion (pyStrip vtIn)) ||
    (reObjectGroup (pyStrip vtIn)).isSome ||
    reArrayB (pyStrip vtIn) ||
    (typerefGroup (pyStrip vtIn)).isSome ||
    ((pyStrip vtIn).data.any (fun c => c = '|') &&
      (match splitUnionTerms (pyStrip vtIn) with
       | none => false
       | some ts =>
         ts.all (fun term =>
           SCALAR_TYPES.contains (pyStrip term) || reTypeAtomB (pyStrip term) ||
             (typerefGroup (pyStrip term)).isSome)))

/-- The §4.2 grammar exactly as the spec words it, for comparison with
`is_valid_value_type_expr`: a trimmed expression is valid iff it is a scalar,
`json<object:S>` with `S` a dot-path, `json<array:T>` with `T` an
atom/scalar/`object`/union of such, `ref:<code>`, or a union (all sides
non-empty after trim) of scalars, bare atoms and type-references. -/
def validPerSpec (vt : String) : Bool :=
  SCALAR_TYPES.contains vt ||
    (reObjectGroup vt).isSome ||
    reArrayB vt ||
    (typerefGroup vt).isSome ||
    (vt.data.any (fun c => c = '|') &&
      (match splitUnionTerms vt with
       | none => false
       | some ts =>
         ts.all (fun term =>
           SCALAR_TYPES.contains (pyStrip term) || reTypeAtomB (pyStrip term) ||
             (typerefGroup (pyStrip term)).isSome)))

-- ----------------------------
-- Linter
-- ----------------------------

/-- One dict assignment `rows_by_tenant_code[(r.tenant_id, r.code)] = r`,
guarded by `if r.tenant_id and r.code`. -/
def idxStep (f : String × String → Option Row) (r : Row) : String × String → Option Row :=
  if r.tenant_id ≠ "" ∧ r.code ≠ "" then
    fun k => if k = (r.tenant_id, r.code) then some r else f k
  else f

/-- The `(tenant_id, code) -> Row` index built in `BizMetadataLinter.__init__`:
dict assignment in input order, skipping rows with a falsy tenant or code. -/
def buildIndex (rows : List Row) : String × String → Option Row :=
  rows.foldl idxStep (fun _ => none)

/-- `str.startswith`. -/
def strStarts (p s : String) : Bool := List.isPrefixOf p.data s.data

/-- `_check_required_and_enums`, one row. -/
def requiredRow (r : Row) : List Violation :=
  (if r.tenant_id = "" then
    [⟨"ERROR", "BASIC_REQUIRED_MISSING", "missing required field: tenant_id",
      r.tenant_id, r.code, "tenant_id", ""⟩] else []) ++
  (if r.code = "" then
    [⟨"ERROR", "BASIC_REQUIRED_MISSING", "missing required field: code",
      r.tenant_id, r.code, "code", ""⟩] else []) ++
  (if r.name = "" then
    [⟨"ERROR", "BASIC_REQUIRED_MISSING", "missing required field: name",
      r.tenant_id, r.code, "name", ""⟩] else []) ++
  (if r.object_type = "" then
    [⟨"ERROR", "BASIC_REQUIRED_MISSING", "missing required field: object_type",
      r.tenant_id, r.code, "object_type", ""⟩] else []) ++
  (if r.status = "" then
    [⟨"ERROR", "BASIC_REQUIRED_MISSING", "missing required field: status",
      r.tenant_id, r.code, "status", ""⟩] else []) ++
  (if r.source = "" then
    [⟨"ERROR", "BASIC_REQUIRED_MISSING", "missing required field: source",
      r.tenant_id, r.code, "source", ""⟩] else []) ++
  (if r.version ≤ 0 then
    [⟨"ERROR", "BASIC_VERSION_INVALID", "version must be positive integer",
      r.tenant_id, r.code, "version", toString r.version⟩] else []) ++
  (if r.object_type ≠ "" ∧ ¬ OBJECT_TYPES.contains r.object_type then
    [⟨"ERROR", "ENUM_OBJECT_TYPE", "invalid object_type: " ++ r.object_type,
      r.tenant_id, r.code, "object_type", r.object_type⟩] else []) ++
  (if r.status ≠ "" ∧ ¬ STATUS.contains r.status then
    [⟨"ERROR", "ENUM_STATUS", "invalid status: " ++ r.status,
      r.tenant_id, r.code, "status", r.status⟩] else []) ++
  (if r.source ≠ "" ∧ ¬ SOURCE.contains r.source then
    [⟨"ERROR", "ENUM_SOURCE", "invalid source: " ++ r.source,
      r.tenant_id, r.code, "source", r.source⟩] else []) ++
  (if r.data_class ≠ "" ∧ ¬ DATA_CLASSES.contains r.data_class then
    [⟨"ERROR", "ENUM_DATA_CLASS", "invalid data_class: " ++ r.data_class,
      r.tenant_id, r.code, "data_class", r.data_class⟩] else [])

def checkRequiredAndEnums (rows : List Row) : List Violation :=
  rows.flatMap requiredRow

/-- `_check_code_format`, one row. -/
def codeFormatRow (r : Row) : List Violation :=
  if r.code ≠ "" ∧ reCodeB r.code = false then
    [⟨"ERROR", "CODE_FORMAT", "code must be dot-separated snake_case",
      r.tenant_id, r.code, "code", r.code⟩]
  else []

def checkCodeFormat (rows : List Row) : List Violation :=
  rows.flatMap codeFormatRow

/-- `_check_uniqueness`: walk rows in order with a seen-set. -/
def checkUniquenessAux : List Row → List (String × String) → List Violation
  | [], _ => []
  | r :: rest, seen =>
    if r.tenant_id ≠ "" ∧ r.code ≠ "" then
      if (r.tenant_id, r.code) ∈ seen then
        ⟨"ERROR", "UNIQUE_TENANT_CODE", "duplicate (tenant_id, code) in input batch",
          r.tenant_id, r.code, "code", r.code⟩ :: checkUniquenessAux rest seen
      else checkUniquenessAux rest ((r.tenant_id, r.code) :: seen)
    else checkUniquenessAux rest seen

def checkUniqueness (rows : List Row) : List Violation :=
  checkUniquenessAux rows []

/-- `_check_scope_and_feature_fields`, one row. -/
def scopeRow (r : Row) : List Violation :=
  if r.object_type ≠ "feature" then
    if r.data_class ≠ "" ∨ r.value_type ≠ "" ∨ r.unit ≠ "" then
      [⟨"ERROR", "SCOPE_NON_FEATURE_HAS_TYPE",
        "object_type != feature must keep data_class/value_type/unit empty",
        r.tenant_id, r.code, "data_class/value_type/unit",
        r.data_class ++ "|" ++ r.value_type ++ "|" ++ r.unit⟩]
    else []
  else
    if r.data_class = "" ∨ r.value_type = "" then
      [⟨"ERROR", "SCOPE_FEATURE_MISSING_TYPE",
        "object_type=feature must have non-empty data_class and value_type",
        r.tenant_id, r.code, "data_class/value_type",
        r.data_class ++ "|" ++ r.value_type⟩]
    else []

def checkScopeAndFeatureFields (rows : List Row) : List Violation :=
  rows.flatMap scopeRow

/-- `_check_types_and_ref`, one row. -/
def typesRefRow (res : Resolver) (r : Row) : List Violation :=
  if r.object_type ≠ "feature" then []
  else if r.value_type ≠ "" ∧ is_valid_value_type_expr r.value_type = false then
    [⟨"ERROR", "TYPE_SYNTAX_INVALID",
      "invalid value_type expression: " ++ r.value_type,
      r.tenant_id, r.code, "value_type", r.value_type⟩]
  else
    match resolve res r.tenant_id r.value_type with
    | some (Except.error vio) =>
      [⟨vio.severity, vio.rule_id, vio.message, r.tenant_id, r.code, vio.field,
        vio.value⟩]
    | some (Except.ok rt) =>
      if is_valid_value_type_expr rt.resolved then []
      else
        [⟨"ERROR", "TYPE_REF_RESOLVED_INVALID",
          "resolved value_type is invalid: " ++ rt.resolved,
          r.tenant_id, r.code, "value_type", r.value_type⟩]
    | none => []

def checkTypesAndRef (res : Resolver) (rows : List Row) : List Violation :=
  rows.flatMap (typesRefRow res)

/-- `_check_unit_rules`, one row. -/
def unitRow (r : Row) : List Violation :=
  if r.object_type ≠ "feature" then []
  else if r.unit ≠ "" ∧ r.data_class ≠ "metric" then
    [⟨"ERROR", "UNIT_NOT_ALLOWED", "unit can be filled only when data_class=metric",
      r.tenant_id, r.code, "unit", r.unit⟩]
  else []

def checkUnitRules (rows : List Row) : List Violation :=
  rows.flatMap unitRow

/-- Normalization of the resolved identifier type inside
`_check_identifier_rules`: a union whose term set is a non-empty subset of
`{int, string}` is rewritten to `int|string` / `int` / `string`. -/
def identNormalize (s : String) : String :=
  match splitUnionTerms s with
  | none => s
  | some ts =>
    let tl := ts.map pyStrip
    if tl.all (fun t => t = "int" ∨ t = "string") ∧ tl ≠ [] then
      if tl.contains "int" ∧ tl.contains "string" then "int|string"
      else if tl.contains "int" then "int"
      else "string"
    else s

/-- Tail of `_check_identifier_rules` once the resolved type is known. -/
def identifierBody (r : Row) (rvt0 : String) : List Violation :=
  let rvt := identNormalize (canonicalUnion (pyStrip rvt0))
  (if IDENTIFIER_ALLOWED.contains rvt then []
   else
     [⟨"ERROR", "IDENTIFIER_VALUE_TYPE",
       "identifier value_type must be one of [" ++ sq ++ "int" ++ sq ++ ", " ++
         sq ++ "int|string" ++ sq ++ ", " ++ sq ++ "string" ++ sq ++
         "] (after ref resolution)",
       r.tenant_id, r.code, "value_type", r.value_type⟩]) ++
  (if r.unit ≠ "" then
    [⟨"ERROR", "IDENTIFIER_UNIT_NOT_EMPTY", "identifier unit must be empty",
      r.tenant_id, r.code, "unit", r.unit⟩] else []) ++
  (if identCodeB r.code then []
   else
     [⟨"ERROR", "IDENTIFIER_CODE_PATTERN", "identifier code must match *.id.<id_type>",
       r.tenant_id, r.code, "code", r.code⟩])

/-- `_check_identifier_rules`, one row. -/
def identifierRow (res : Resolver) (r : Row) : List Violation :=
  if r.object_type ≠ "feature" ∨ r.data_class ≠ "identifier" then []
  else
    match resolve res r.tenant_id r.value_type with
    | some (Except.error vio) =>
      [⟨vio.severity, vio.rule_id, vio.message, r.tenant_id, r.code, "value_type",
        r.value_type⟩]
    | some (Except.ok rt) => identifierBody r rt.resolved
    | none => identifierBody r r.value_type

def checkIdentifierRules (res : Resolver) (rows : List Row) : List Violation :=
  rows.flatMap (identifierRow res)

/-- `_check_hierarchy`, one row. -/
def hierarchyRow (idx : String × String → Option Row) (r : Row) : List Violation :=
  if r.parent_code = "" then []
  else
    match idx (r.tenant_id, r.parent_code) with
    | none =>
      [⟨"ERROR", "HIERARCHY_PARENT_MISSING",
        "parent_code not found in same tenant: " ++ r.parent_code,
        r.tenant_id, r.code, "parent_code", r.parent_code⟩]
    | some _ =>
      if strStarts (r.parent_code ++ ".") r.code then []
      else
        [⟨"ERROR", "HIERARCHY_PARENT_PREFIX",
          "child code must start with parent_code + " ++ sq ++ "." ++ sq,
          r.tenant_id, r.code, "parent_code", r.parent_code⟩]

def checkHierarchy (idx : String × String → Option Row) (rows : List Row) :
    List Violation :=
  rows.flatMap (hierarchyRow idx)

/-- The codes recorded for one tenant by `_check_completeness`
(`tenant_codes[tenant_id]`, a set queried only through `any`). -/
def tenantCodes (rows : List Row) (t : String) : List String :=
  (rows.filter (fun r => r.tenant_id = t)).map (fun r => r.code)

/-- Object/array completeness tests of `_check_completeness` once the resolved
type `vt` is known. -/
def completenessBody (rows : List Row) (r : Row) (vt : String) : List Violation :=
  (if r.data_class = "object" then
    match reObjectGroup vt with
    | some S =>
      if (tenantCodes rows r.tenant_id).any (fun c => strStarts (S ++ ".") c) then []
      else
        [⟨"ERROR", "COMPLETENESS_OBJECT_CHILDREN_MISSING",
          "object schema_ref " ++ S ++ " must have S.* child fields",
          r.tenant_id, r.code, "value_type", r.value_type⟩]
    | none => []
   else []) ++
  (if r.data_class = "array" ∧ vt = "json<array:object>" then
    if (tenantCodes rows r.tenant_id).any (fun c => strStarts (r.code ++ ".item.") c)
    then []
    else
      [⟨"ERROR", "COMPLETENESS_ARRAY_OBJECT_ITEMS_MISSING",
        "json<array:object> must have xxx.item.* child fields",
        r.tenant_id, r.code, "value_type", r.value_type⟩]
   else [])

/-- `_check_completeness`, one row. -/
def completenessRow (res : Resolver) (rows : List Row) (r : Row) : List Violation :=
  if r.object_type ≠ "feature" then []
  else if ¬ (r.data_class = "object" ∨ r.data_class = "array") then []
  else
    match resolve res r.tenant_id r.value_type with
    | some (Except.error vio) =>
      [⟨vio.severity, vio.rule_id, vio.message, r.tenant_id, r.code, "value_type",
        r.value_type⟩]
    | some (Except.ok rt) => completenessBody rows r rt.resolved
    | none => completenessBody rows r r.value_type

def checkCompleteness (res : Resolver) (rows : List Row) : List Violation :=
  rows.flatMap (completenessRow res rows)

/-- `BizMetadataLinter` after a successful `__init__`. -/
structure Linter where
  mode : String
  rows : List Row
  resolver : Resolver

/-- `BizMetadataLinter.__init__`: an invalid mode is a `ValueError` at
construction; otherwise the index and resolver are built once. -/
def mkLinter (rows : List Row) (mode : String) (maxRefDepth : Nat) :
    Except String Linter :=
  if mode = "import" ∨ mode = "publish" then
    Except.ok ⟨mode, rows, ⟨buildIndex rows, maxRefDepth⟩⟩
  else Except.error "mode must be one of: import, publish"

/-- `BizMetadataLinter.lint`: the fixed, ordered battery of checks;
completeness runs only in publish mode. -/
def lint (L : Linter) : List Violation :=
  checkRequiredAndEnums L.rows ++
    checkCodeFormat L.rows ++
    checkUniqueness L.rows ++
    checkScopeAndFeatureFields L.rows ++
    checkTypesAndRef L.resolver L.rows ++
    checkUnitRules L.rows ++
    checkIdentifierRules L.resolver L.rows ++
    checkHierarchy L.resolver.idx L.rows ++
    (if L.mode = "publish" then checkCompleteness L.resolver L.rows else [])

-- ----------------------------
-- Theorems: the row index (C10)
-- ----------------------------

theorem idxStep_preserves_empty (f : String × String → Option Row) (r : Row)
    (k : String × String) (hk : k.1 = "" ∨ k.2 = "") (hf : f k = none) :
    idxStep f r k = none := by
  unfold idxStep
  split
  · rename_i hg
    have hne : k ≠ (r.tenant_id, r.code) := by
      intro he
      rcases hk with h | h
      · exact hg.1 (by rw [he] at h; exact h)
      · exact hg.2 (by rw [he] at h; exact h)
    simp [hne, hf]
  · exact hf

theorem buildIndexAux_empty (rows : List Row) (f : String × String → Option Row)
    (k : String × String) (hk : k.1 = "" ∨ k.2 = "") (hf : f k = none) :
    rows.foldl idxStep f k = none := by
  induction rows generalizing f with
  | nil => simpa using hf
  | cons r rest ih =>
    rw [List.foldl_cons]
    exact ih (idxStep f r) (idxStep_preserves_empty f r k hk hf)

theorem buildIndexAux_lookup (rows : List Row) (f : String × String → Option Row)
    (t c : String) (ht : t ≠ "") (hc : c ≠ "") :
    rows.foldl idxStep f (t, c) =
      ((rows.filter (fun r => decide (r.tenant_id = t ∧ r.code = c))).getLast?).elim
        (f (t, c)) some := by
  induction rows generalizing f with
  | nil => simp
  | cons r rest ih =>
    rw [List.foldl_cons, ih, List.filter_cons]
    by_cases hm : r.tenant_id = t ∧ r.code = c
    · rw [if_pos (decide_eq_true hm)]
      have hstep : idxStep f r (t, c) = some r := by
        have hg : r.tenant_id ≠ "" ∧ r.code ≠ "" := by
          refine ⟨?_, ?_⟩
          · rw [hm.1]; exact ht
          · rw [hm.2]; exact hc
        unfold idxStep
        rw [if_pos hg, if_pos (by rw [hm.1, hm.2])]
      rw [hstep]
      cases hlast : (rest.filter (fun r => decide (r.tenant_id = t ∧ r.code = c))).getLast? with
      | none =>
        have hnil := List.getLast?_eq_none_iff.mp hlast
        rw [hnil]
        rfl
      | some r2 =>
        have hcons : (r :: rest.filter
            (fun r => decide (r.tenant_id = t ∧ r.code = c))).getLast? = some r2 := by
          cases hfm : rest.filter (fun r => decide (r.tenant_id = t ∧ r.code = c)) with
          | nil => rw [hfm] at hlast; simp at hlast
          | cons a as =>
            rw [hfm] at hlast
            rw [List.getLast?_cons_cons]
            exact hlast
        rw [hcons]
        rfl
    · rw [if_neg (fun h => hm (of_decide_eq_true h))]
      have hstep : idxStep f r (t, c) = f (t, c) := by
        unfold idxStep
        split
        · have hne : (t, c) ≠ (r.tenant_id, r.code) := by
            intro he
            injection he with h1 h2
            exact hm ⟨h1.symm, h2.symm⟩
          show (if (t, c) = (r.tenant_id, r.code) then some r else f (t, c)) = f (t, c)
          rw [if_neg hne]
        · rfl
      rw [hstep]

/-- C10: the `(tenant_id, code) -> Row` index built by the engine maps each
key with non-empty components to the **last** row in input order carrying that
key (so TypeRef resolution and `parent_code` lookups, which read this index,
resolve against the last occurrence), and maps every key with an empty tenant
or code to nothing: such rows are never entered. -/
theorem c10_index_last_write_wins (rows : List Row) (t c : String) :
    buildIndex rows (t, c) =
      if t = "" ∨ c = "" then none
      else (rows.filter (fun r => decide (r.tenant_id = t ∧ r.code = c))).getLast? := by
  by_cases h : t = "" ∨ c = ""
  · rw [if_pos h]
    exact buildIndexAux_empty rows _ (t, c) h rfl
  · push_neg at h
    rw [if_neg (by tauto), buildIndex,
      buildIndexAux_lookup rows _ t c h.1 h.2]
    cases (rows.filter (fun r => decide (r.tenant_id = t ∧ r.code = c))).getLast? <;> simp

-- ----------------------------
-- Theorems: row construction (C8)
-- ----------------------------

/-- C8: `Row` construction is total by construction (`rowFromRaw` is a Lean
function, so no input raises); a field whose trimmed, lowercased value is one
of the blank markers normalizes to the empty string; a missing `version`
normalizes to `0`; a present but non-numeric `version` normalizes to `0`
instead of failing. -/
theorem c8_row_construction_total :
    (∀ s : String, pyLower (pyStrip s) ∈ (["none", "null", "nan"] : List String) →
      pyNorm (some s) = "") ∧
    (∀ raw, (rowFromRaw raw).tenant_id = pyNorm (rawGet raw "tenant_id")) ∧
    (∀ raw, rawGet raw "version" = none → (rowFromRaw raw).version = 0) ∧
    (∀ raw s, rawGet raw "version" = some s → pyInt (pyNorm (some s)) = none →
      (rowFromRaw raw).version = 0) := by
  refine ⟨?_, ?_, ?_, ?_⟩
  · intro s hs
    show (if pyLower (pyStrip s) ∈ (["none", "null", "nan"] : List String) then ""
      else pyStrip s) = ""
    rw [if_pos hs]
  · intro raw
    rfl
  · intro raw hv
    unfold rowFromRaw
    simp only [hv]
    have : pyNorm none = "" := rfl
    simp [this]
  · intro raw s hv hint
    unfold rowFromRaw
    simp only [hv]
    by_cases he : pyNorm (some s) = ""
    · simp [he]
    · simp only [he, if_false, hint]

theorem c8_witness :
    pyNorm (some " NaN ") = "" ∧ (rowFromRaw [("version", "abc")]).version = 0 :=
  ⟨c8_row_construction_total.1 " NaN " (by decide),
   c8_row_construction_total.2.2.2 [("version", "abc")] "abc" (by decide) (by decide)⟩

-- ----------------------------
-- Theorems: scope check (C6)
-- ----------------------------

/-- C6: for a non-feature row, the scope check emits exactly one
`SCOPE_NON_FEATURE_HAS_TYPE` violation when any of `data_class`, `value_type`,
`unit` is non-empty — never more, however many of the three are set — and
nothing when all three are empty; for a feature row, `SCOPE_FEATURE_MISSING_TYPE`
is emitted iff `data_class` or `value_type` is empty. -/
theorem c6_scope_check (r : Row) :
    (r.object_type ≠ "feature" →
      (scopeRow r).countP (fun v => v.rule_id == "SCOPE_NON_FEATURE_HAS_TYPE") =
        (if r.data_class ≠ "" ∨ r.value_type ≠ "" ∨ r.unit ≠ "" then 1 else 0) ∧
      (r.data_class = "" ∧ r.value_type = "" ∧ r.unit = "" → scopeRow r = [])) ∧
    (r.object_type = "feature" →
      ((∃ v ∈ scopeRow r, v.rule_id = "SCOPE_FEATURE_MISSING_TYPE") ↔
        (r.data_class = "" ∨ r.value_type = ""))) := by
  constructor
  · intro hnf
    constructor
    · unfold scopeRow
      rw [if_pos hnf]
      by_cases hs : r.data_class ≠ "" ∨ r.value_type ≠ "" ∨ r.unit ≠ ""
      · rw [if_pos hs, if_pos hs]
        simp [List.countP_cons]
      · rw [if_neg hs, if_neg hs]
        simp [List.countP_nil]
    · intro hall
      unfold scopeRow
      rw [if_pos hnf, if_neg (by simp [hall.1, hall.2.1, hall.2.2])]
  · intro hf
    unfold scopeRow
    rw [if_neg (by simp [hf])]
    by_cases hm : r.data_class = "" ∨ r.value_type = ""
    · rw [if_pos hm]
      simp [hm]
    · rw [if_neg hm]
      simp [hm]

theorem c6_witness :
    (scopeRow ⟨"t1", 1, "e.x", "X", "", "entity", "", "attribute", "", "", "active",
        "manual"⟩).countP (fun v => v.rule_id == "SCOPE_NON_FEATURE_HAS_TYPE") = 1 := by
  have h := (c6_scope_check ⟨"t1", 1, "e.x", "X", "", "entity", "", "attribute", "",
    "", "active", "manual"⟩).1 (by decide)
  rw [h.1]
  decide

-- ----------------------------
-- Theorems: construction errors and lint totality (C7)
-- ----------------------------

/-- C7: constructing the engine with a mode other than `import` / `publish`
yields the fatal construction error (an `Except.error`, not a `Violation`);
for every successfully constructed engine and arbitrary rows, `lint` is a
total Lean function that returns the concatenation of **all** the checks —
no row data can abort it or truncate the battery. -/
theorem c7_constructor_and_lint (rows : List Row) (mode : String) (d : Nat) :
    ((∃ e, mkLinter rows mode d = Except.error e) ↔
      ¬ (mode = "import" ∨ mode = "publish")) ∧
    (∀ L, mkLinter rows mode d = Except.ok L →
      lint L =
        checkRequiredAndEnums rows ++
          checkCodeFormat rows ++
          checkUniqueness rows ++
          checkScopeAndFeatureFields rows ++
          checkTypesAndRef ⟨buildIndex rows, d⟩ rows ++
          checkUnitRules rows ++
          checkIdentifierRules ⟨buildIndex rows, d⟩ rows ++
          checkHierarchy (buildIndex rows) rows ++
          (if mode = "publish" then checkCompleteness ⟨buildIndex rows, d⟩ rows
           else [])) := by
  constructor
  · constructor
    · rintro ⟨e, he⟩ hm
      unfold mkLinter at he
      rw [if_pos hm] at he
      exact Except.noConfusion he
    · intro hm
      refine ⟨"mode must be one of: import, publish", ?_⟩
      unfold mkLinter
      rw [if_neg hm]
  · intro L hL
    unfold mkLinter at hL
    by_cases hm : mode = "import" ∨ mode = "publish"
    · rw [if_pos hm] at hL
      cases hL
      rfl
    · rw [if_neg hm] at hL
      exact Except.noConfusion hL

theorem c7_witness :
    ((∃ e, mkLinter [] "strict" 5 = Except.error e) ↔
      ¬ ("strict" = "import" ∨ "strict" = "publish")) ∧
    lint (Linter.mk "import" [] ⟨buildIndex [], 5⟩) = [] :=
  ⟨(c7_constructor_and_lint [] "strict" 5).1,
   by
    have h := (c7_constructor_and_lint [] "import" 5).2
      (Linter.mk "import" [] ⟨buildIndex [], 5⟩) rfl
    rw [h]
    decide⟩

-- ----------------------------
-- Theorems: publish completeness for objects (C2)
-- ----------------------------

/-- A feature row whose own code sits under its own `json<object:...>` schema
prefix, with no other row in the batch. -/
def c2row : Row :=
  ⟨"t1", 1, "s.base.x", "X", "", "feature", "", "object", "json<object:s.base>",
    "", "active", "manual"⟩

/-- C2 as stated is false: the completeness check tests the schema prefix
against **all** codes of the tenant, the row's own code included.  For the
single-row batch `[c2row]` there is no *other* row whose code starts with
`s.base.`, the row is a publish-mode `data_class = object` feature whose
resolved type is `json<object:s.base>`, and yet the full publish lint emits
nothing — the row's own code `s.base.x` satisfies the check. -/
theorem c2_counterexample :
    resolve ⟨buildIndex [c2row], 5⟩ "t1" c2row.value_type =
      some (Except.ok ⟨"json<object:s.base>", "json<object:s.base>", "", []⟩) ∧
    (¬ ∃ r2 ∈ [c2row], r2 ≠ c2row ∧ strStarts "s.base." r2.code = true) ∧
    (mkLinter [c2row] "publish" 5).map lint = Except.ok [] := by
  refine ⟨by decide, by decide, ?_⟩
  have h := (c7_constructor_and_lint [c2row] "publish" 5).2
    (Linter.mk "publish" [c2row] ⟨buildIndex [c2row], 5⟩) rfl
  show Except.ok (lint (Linter.mk "publish" [c2row] ⟨buildIndex [c2row], 5⟩)) =
    Except.ok []
  rw [h]
  decide

/-- C2 amended: in publish mode, for a feature row with `data_class = object`
whose resolved `value_type` is `json<object:S>`, the
`COMPLETENESS_OBJECT_CHILDREN_MISSING` violation is emitted iff no row of the
same tenant — the row itself included — has a code starting with `S + "."`. -/
theorem c2_amended_completeness (res : Resolver) (rows : List Row) (r : Row)
    (rt : ResolvedType) (S : String)
    (hf : r.object_type = "feature") (hdc : r.data_class = "object")
    (hres : resolve res r.tenant_id r.value_type = some (Except.ok rt))
    (hS : reObjectGroup rt.resolved = some S) :
    (∃ v ∈ completenessRow res rows r,
        v.rule_id = "COMPLETENESS_OBJECT_CHILDREN_MISSING") ↔
      ¬ (tenantCodes rows r.tenant_id).any (fun c => strStarts (S ++ ".") c) = true := by
  have hrow : completenessRow res rows r = completenessBody rows r rt.resolved := by
    unfold completenessRow
    rw [if_neg (by rw [hf]; exact fun h => h rfl),
      if_neg (by rw [hdc]; intro h; exact h (Or.inl rfl)), hres]
  rw [hrow]
  unfold completenessBody
  rw [if_pos hdc,
    if_neg (by rw [hdc]; intro h; exact absurd h.1 (by decide))]
  simp only [hS]
  by_cases hany : (tenantCodes rows r.tenant_id).any (fun c => strStarts (S ++ ".") c) = true
  · simp [hany]
  · simp [hany]

/-- Like `c2row` but with a code outside the schema prefix, so the amended
rule fires. -/
def c2rowB : Row :=
  ⟨"t1", 1, "obj.a", "X", "", "feature", "", "object", "json<object:s.base>",
    "", "active", "manual"⟩

theorem c2_witness :
    ∃ v ∈ completenessRow ⟨buildIndex [c2rowB], 5⟩ [c2rowB] c2rowB,
      v.rule_id = "COMPLETENESS_OBJECT_CHILDREN_MISSING" :=
  (c2_amended_completeness ⟨buildIndex [c2rowB], 5⟩ [c2rowB] c2rowB
    ⟨"json<object:s.base>", "json<object:s.base>", "", []⟩ "s.base"
    (by decide) (by decide) (by decide) (by decide)).mpr (by decide)

-- ----------------------------
-- Theorems: identifier rules (C3)
-- ----------------------------

theorem identifierBody_mems (r : Row) (rvt0 : String) :
    ((∃ v ∈ identifierBody r rvt0, v.rule_id = "IDENTIFIER_VALUE_TYPE") ↔
      IDENTIFIER_ALLOWED.contains
        (identNormalize (canonicalUnion (pyStrip rvt0))) = false) ∧
    ((∃ v ∈ identifierBody r rvt0, v.rule_id = "IDENTIFIER_UNIT_NOT_EMPTY") ↔
      r.unit ≠ "") ∧
    ((∃ v ∈ identifierBody r rvt0, v.rule_id = "IDENTIFIER_CODE_PATTERN") ↔
      identCodeB r.code = false) := by
  unfold identifierBody
  by_cases h1 : IDENTIFIER_ALLOWED.contains
      (identNormalize (canonicalUnion (pyStrip rvt0))) = true
  all_goals by_cases h2 : r.unit ≠ ""
  all_goals by_cases h3 : identCodeB r.code = true
  all_goals simp_all [List.mem_append]

/-- C3: for a feature row with `data_class = identifier` whose `value_type`
resolves without failure, the `IDENTIFIER_VALUE_TYPE` error is emitted iff the
resolved type, normalized by order-insensitive dedup of union terms over
`{int, string}`, is not one of `{string, int, int|string}`;
`IDENTIFIER_UNIT_NOT_EMPTY` is emitted iff `unit` is non-empty;
`IDENTIFIER_CODE_PATTERN` is emitted iff the code does not match
`*.id.<id_type>`.  The normalization treats `int|string` and `string|int`
alike and collapses `int|int` to `int`. -/
theorem c3_identifier_rules (res : Resolver) (r : Row)
    (hf : r.object_type = "feature") (hdc : r.data_class = "identifier")
    (hok : ∀ v, resolve res r.tenant_id r.value_type ≠ some (Except.error v)) :
    ((∃ v ∈ identifierRow res r, v.rule_id = "IDENTIFIER_VALUE_TYPE") ↔
      IDENTIFIER_ALLOWED.contains
        (identNormalize (canonicalUnion (pyStrip
          (match resolve res r.tenant_id r.value_type with
           | some (Except.ok rt) => rt.resolved
           | _ => r.value_type)))) = false) ∧
    ((∃ v ∈ identifierRow res r, v.rule_id = "IDENTIFIER_UNIT_NOT_EMPTY") ↔
      r.unit ≠ "") ∧
    ((∃ v ∈ identifierRow res r, v.rule_id = "IDENTIFIER_CODE_PATTERN") ↔
      identCodeB r.code = false) ∧
    identNormalize "int|string" = "int|string" ∧
    identNormalize "string|int" = "int|string" ∧
    identNormalize "int|int" = "int" := by
  have hrow : identifierRow res r =
      identifierBody r
        (match resolve res r.tenant_id r.value_type with
         | some (Except.ok rt) => rt.resolved
         | _ => r.value_type) := by
    unfold identifierRow
    rw [if_neg (by rw [hf, hdc]; intro h; rcases h with h | h <;> exact h rfl)]
    cases hres : resolve res r.tenant_id r.value_type with
    | none => rfl
    | some e =>
      cases e with
      | error v => exact absurd hres (hok v)
      | ok rt => rfl
  rw [hrow]
  have hb := identifierBody_mems r
    (match resolve res r.tenant_id r.value_type with
     | some (Except.ok rt) => rt.resolved
     | _ => r.value_type)
  exact ⟨hb.1, hb.2.1, hb.2.2, by decide, by decide, by decide⟩

/-- A feature identifier row with a scalar non-identifier type and a code
outside `*.id.*`, for exercising `c3_identifier_rules`. -/
def c3row : Row :=
  ⟨"t1", 1, "f.x", "X", "", "feature", "", "identifier", "decimal", "",
    "active", "manual"⟩

theorem c3_witness :
    (∃ v ∈ identifierRow ⟨buildIndex [], 5⟩ c3row,
      v.rule_id = "IDENTIFIER_VALUE_TYPE") ∧
    (∃ v ∈ identifierRow ⟨buildIndex [], 5⟩ c3row,
      v.rule_id = "IDENTIFIER_CODE_PATTERN") := by
  have hok : ∀ v, resolve ⟨buildIndex [], 5⟩ c3row.tenant_id c3row.value_type ≠
      some (Except.error v) := by
    intro v h
    have h2 : resolve ⟨buildIndex [], 5⟩ c3row.tenant_id c3row.value_type =
        some (Except.ok ⟨"decimal", "decimal", "", []⟩) := by decide
    rw [h2] at h
    exact Except.noConfusion (Option.some.inj h)
  have h := c3_identifier_rules ⟨buildIndex [], 5⟩ c3row (by decide) (by decide) hok
  exact ⟨h.1.mpr (by decide), h.2.2.1.mpr (by decide)⟩

-- ----------------------------
-- Theorems: union resolution (C4)
-- ----------------------------

/-- Substitution map over union terms: each reference term is replaced by its
resolved expression (stripped, as in `resolve`); non-reference terms pass
through; any resolution failure aborts. -/
def substTerms (res : Resolver) (tenant : String) : List String → Option (List String)
  | [] => some []
  | t :: rest =>
    if (typerefGroup t).isSome then
      match resolveSingleRef res tenant t with
      | Except.ok rt => (substTerms res tenant rest).map (fun l => pyStrip rt.resolved :: l)
      | Except.error _ => none
    else (substTerms res tenant rest).map (fun l => t :: l)

theorem resolveUnionGo_subst (res : Resolver) (tenant vt : String) :
    ∀ (ts rs acc : List String), substTerms res tenant ts = some rs →
      resolveUnionGo res tenant vt ts acc =
        Except.ok ⟨vt,
          canonicalUnion (joinBarStr (dedupTerms (flattenTerms (acc ++ rs)) [])),
          "", []⟩ := by
  intro ts
  induction ts with
  | nil =>
    intro rs acc hs
    cases Option.some.inj hs
    rw [List.append_nil]
    rfl
  | cons t rest ih =>
    intro rs acc hs
    unfold substTerms at hs
    unfold resolveUnionGo
    by_cases hr : (typerefGroup t).isSome
    · rw [if_pos hr] at hs ⊢
      cases hsr : resolveSingleRef res tenant t with
      | error v => rw [hsr] at hs; exact Option.noConfusion hs
      | ok rt =>
        rw [hsr] at hs
        cases hrest : substTerms res tenant rest with
        | none => rw [hrest] at hs; exact Option.noConfusion hs
        | some rs2 =>
          rw [hrest] at hs
          cases Option.some.inj hs
          simp only [hsr]
          rw [ih rs2 (acc ++ [pyStrip rt.resolved]) hrest, List.append_assoc]
          rfl
    · rw [if_neg hr] at hs ⊢
      cases hrest : substTerms res tenant rest with
      | none => rw [hrest] at hs; exact Option.noConfusion hs
      | some rs2 =>
        rw [hrest] at hs
        cases Option.some.inj hs
        rw [ih rs2 (acc ++ [t]) hrest, List.append_assoc]
        rfl

/-- C4: resolving a union substitutes each reference term by its resolved
expression, flattens substituted terms that are themselves unions,
deduplicates preserving first-seen order, and rejoins with `|`; in particular
a union whose substituted terms are `string` and `string` (two references both
resolving to `string`) resolves to exactly `"string"` — independently of the
order of the two reference terms, since both orders substitute to the same
term list. -/
theorem c4_union_flatten_dedup (res : Resolver) (tenant vtIn : String)
    (ts rs : List String)
    (hne : pyStrip vtIn ≠ "")
    (href : typerefGroup (pyStrip vtIn) = none)
    (hsplit : splitUnionTerms (pyStrip vtIn) = some ts)
    (hsubst : substTerms res tenant ts = some rs) :
    resolve res tenant vtIn =
      some (Except.ok ⟨pyStrip vtIn,
        canonicalUnion (joinBarStr (dedupTerms (flattenTerms rs) [])), "", []⟩) ∧
    (rs = ["string", "string"] →
      resolve res tenant vtIn =
        some (Except.ok ⟨pyStrip vtIn, "string", "", []⟩)) := by
  have hmain : resolve res tenant vtIn =
      some (Except.ok ⟨pyStrip vtIn,
        canonicalUnion (joinBarStr (dedupTerms (flattenTerms rs) [])), "", []⟩) := by
    unfold resolve
    rw [if_neg hne, href]
    show (match splitUnionTerms (pyStrip vtIn) with
      | some ts => some (resolveUnionGo res tenant (pyStrip vtIn) ts [])
      | none => some (Except.ok ⟨pyStrip vtIn, canonicalUnion (pyStrip vtIn), "", []⟩)) = _
    simp only [hsplit]
    rw [resolveUnionGo_subst res tenant (pyStrip vtIn) ts rs [] hsubst]
    rfl
  refine ⟨hmain, fun hrs => ?_⟩
  rw [hmain, hrs]
  rfl

/-- Rows for the C4 witness: two distinct features both typed `string`. -/
def c4rowX : Row :=
  ⟨"t", 1, "x", "X", "", "feature", "", "attribute", "string", "", "active", "manual"⟩

def c4rowY : Row :=
  ⟨"t", 1, "y", "Y", "", "feature", "", "attribute", "string", "", "active", "manual"⟩

def c4res : Resolver := ⟨buildIndex [c4rowX, c4rowY], 5⟩

theorem c4_witness :
    resolve c4res "t" "ref:x | ref:y" =
      some (Except.ok ⟨"ref:x | ref:y", "string", "", []⟩) ∧
    resolve c4res "t" "ref:y | ref:x" =
      some (Except.ok ⟨"ref:y | ref:x", "string", "", []⟩) := by
  constructor
  · have h := (c4_union_flatten_dedup c4res "t" "ref:x | ref:y"
      ["ref:x", "ref:y"] ["string", "string"]
      (by decide) (by decide) (by decide) (by decide)).2 rfl
    exact h
  · have h := (c4_union_flatten_dedup c4res "t" "ref:y | ref:x"
      ["ref:y", "ref:x"] ["string", "string"]
      (by decide) (by decide) (by decide) (by decide)).2 rfl
    exact h

-- ----------------------------
-- Theorems: every violation is an ERROR (C9)
-- ----------------------------

theorem mem_ite_singleton {c : Prop} [Decidable c] {v x : Violation}
    (h : v ∈ (if c then [x] else ([] : List Violation))) : v = x := by
  split at h
  · simpa using h
  · exact absurd h (List.not_mem_nil v)

theorem mem_ite_singleton_neg {c : Prop} [Decidable c] {v x : Violation}
    (h : v ∈ (if c then ([] : List Violation) else [x])) : v = x := by
  split at h
  · exact absurd h (List.not_mem_nil v)
  · simpa using h

theorem resolveRefAux_error_sev (res : Resolver) (tenant vt : String) :
    ∀ (fuel : Nat) (seen : List String) (cur : String) (v : Violation),
      resolveRefAux res tenant vt fuel seen cur = Except.error v →
      v.severity = "ERROR" := by
  intro fuel
  induction fuel with
  | zero =>
    intro seen cur v h
    unfold resolveRefAux at h
    cases Except.error.inj h
    rfl
  | succ fuel ih =>
    intro seen cur v h
    unfold resolveRefAux at h
    split at h
    · cases Except.error.inj h; rfl
    · split at h
      · cases Except.error.inj h; rfl
      · split at h
        · cases Except.error.inj h; rfl
        · split at h
          · cases Except.error.inj h; rfl
          · split at h
            · cases Except.error.inj h; rfl
            · split at h
              · exact ih _ _ _ h
              · exact Except.noConfusion h

theorem resolveSingleRef_error_sev (res : Resolver) (tenant s : String)
    (v : Violation) (h : resolveSingleRef res tenant s = Except.error v) :
    v.severity = "ERROR" := by
  unfold resolveSingleRef at h
  split at h
  · exact Except.noConfusion h
  · exact resolveRefAux_error_sev res tenant (pyStrip s) res.maxDepth [] _ v h

theorem resolveUnionGo_error_sev (res : Resolver) (tenant vt : String) :
    ∀ (ts acc : List String) (v : Violation),
      resolveUnionGo res tenant vt ts acc = Except.error v →
      v.severity = "ERROR" := by
  intro ts
  induction ts with
  | nil => intro acc v h; exact Except.noConfusion h
  | cons t rest ih =>
    intro acc v h
    unfold resolveUnionGo at h
    split at h
    · split at h
      · rename_i vio hsr
        cases Except.error.inj h
        exact resolveSingleRef_error_sev res tenant t vio hsr
      · exact ih _ v h
    · exact ih _ v h

theorem resolve_error_sev (res : Resolver) (tenant s : String) (v : Violation)
    (h : resolve res tenant s = some (Except.error v)) : v.severity = "ERROR" := by
  unfold resolve at h
  split at h
  · exact Option.noConfusion h
  · split at h
    · exact resolveSingleRef_error_sev res tenant (pyStrip s) v (Option.some.inj h)
    · split at h
      · exact resolveUnionGo_error_sev res tenant (pyStrip s) _ [] v (Option.some.inj h)
      · exact Except.noConfusion (Option.some.inj h)

/-- "every violation in the list is an ERROR". -/
def AllErr (l : List Violation) : Prop := ∀ v ∈ l, v.severity = "ERROR"

theorem allErr_nil : AllErr [] := fun v hv => absurd hv (List.not_mem_nil v)

theorem allErr_singleton {x : Violation} (h : x.severity = "ERROR") : AllErr [x] := by
  intro v hv
  rw [List.mem_singleton.mp hv]
  exact h

theorem allErr_append {l1 l2 : List Violation} (h1 : AllErr l1) (h2 : AllErr l2) :
    AllErr (l1 ++ l2) := by
  intro v hv
  rcases List.mem_append.mp hv with h | h
  · exact h1 v h
  · exact h2 v h

theorem allErr_ite {c : Prop} [Decidable c] {l1 l2 : List Violation}
    (h1 : AllErr l1) (h2 : AllErr l2) : AllErr (if c then l1 else l2) := by
  split
  · exact h1
  · exact h2

theorem requiredRow_sev (r : Row) : AllErr (requiredRow r) := by
  unfold requiredRow
  repeat' first
  | exact allErr_nil
  | exact allErr_singleton rfl
  | apply allErr_append
  | apply allErr_ite

theorem codeFormatRow_sev (r : Row) : ∀ v ∈ codeFormatRow r, v.severity = "ERROR" := by
  intro v hv
  unfold codeFormatRow at hv
  rw [mem_ite_singleton hv]

theorem checkUniquenessAux_sev :
    ∀ (rows : List Row) (seen : List (String × String)) (v : Violation),
      v ∈ checkUniquenessAux rows seen → v.severity = "ERROR" := by
  intro rows
  induction rows with
  | nil => intro seen v hv; exact absurd hv (List.not_mem_nil v)
  | cons r rest ih =>
    intro seen v hv
    unfold checkUniquenessAux at hv
    split at hv
    · split at hv
      · rcases List.mem_cons.mp hv with h | h
        · rw [h]
        · exact ih _ v h
      · exact ih _ v hv
    · exact ih _ v hv

theorem scopeRow_sev (r : Row) : ∀ v ∈ scopeRow r, v.severity = "ERROR" := by
  intro v hv
  unfold scopeRow at hv
  split at hv <;> rw [mem_ite_singleton hv]

theorem typesRefRow_sev (res : Resolver) (r : Row) :
    ∀ v ∈ typesRefRow res r, v.severity = "ERROR" := by
  intro v hv
  unfold typesRefRow at hv
  split at hv
  · exact absurd hv (List.not_mem_nil v)
  · split at hv
    · rw [List.mem_singleton.mp hv]
    · split at hv
      · rename_i vio hres
        rw [List.mem_singleton.mp hv]
        exact resolve_error_sev res r.tenant_id r.value_type vio hres
      · rw [mem_ite_singleton_neg hv]
      · exact absurd hv (List.not_mem_nil v)

theorem unitRow_sev (r : Row) : ∀ v ∈ unitRow r, v.severity = "ERROR" := by
  intro v hv
  unfold unitRow at hv
  split at hv
  · exact absurd hv (List.not_mem_nil v)
  · split at hv
    · rw [List.mem_singleton.mp hv]
    · exact absurd hv (List.not_mem_nil v)

theorem identifierBody_sev (r : Row) (rvt0 : String) :
    ∀ v ∈ identifierBody r rvt0, v.severity = "ERROR" := by
  show AllErr (identifierBody r rvt0)
  unfold identifierBody
  repeat' first
  | exact allErr_nil
  | exact allErr_singleton rfl
  | apply allErr_append
  | apply allErr_ite

theorem identifierRow_sev (res : Resolver) (r : Row) :
    ∀ v ∈ identifierRow res r, v.severity = "ERROR" := by
  intro v hv
  unfold identifierRow at hv
  split at hv
  · exact absurd hv (List.not_mem_nil v)
  · split at hv
    · rename_i vio hres
      rw [List.mem_singleton.mp hv]
      exact resolve_error_sev res r.tenant_id r.value_type vio hres
    · exact identifierBody_sev r _ v hv
    · exact identifierBody_sev r _ v hv

theorem hierarchyRow_sev (idx : String × String → Option Row) (r : Row) :
    ∀ v ∈ hierarchyRow idx r, v.severity = "ERROR" := by
  intro v hv
  unfold hierarchyRow at hv
  split at hv
  · exact absurd hv (List.not_mem_nil v)
  · split at hv
    · rw [List.mem_singleton.mp hv]
    · split at hv
      · exact absurd hv (List.not_mem_nil v)
      · rw [List.mem_singleton.mp hv]

theorem completenessBody_sev (rows : List Row) (r : Row) (vt : String) :
    ∀ v ∈ completenessBody rows r vt, v.severity = "ERROR" := by
  intro v hv
  unfold completenessBody at hv
  simp only [List.mem_append] at hv
  rcases hv with hv | hv
  · split at hv
    · split at hv
      · rw [mem_ite_singleton_neg hv]
      · exact absurd hv (List.not_mem_nil v)
    · exact absurd hv (List.not_mem_nil v)
  · split at hv
    · rw [mem_ite_singleton_neg hv]
    · exact absurd hv (List.not_mem_nil v)

theorem completenessRow_sev (res : Resolver) (rows : List Row) (r : Row) :
    ∀ v ∈ completenessRow res rows r, v.severity = "ERROR" := by
  intro v hv
  unfold completenessRow at hv
  split at hv
  · exact absurd hv (List.not_mem_nil v)
  · split at hv
    · exact absurd hv (List.not_mem_nil v)
    · split at hv
      · rename_i vio hres
        rw [List.mem_singleton.mp hv]
        exact resolve_error_sev res r.tenant_id r.value_type vio hres
      · exact completenessBody_sev rows r _ v hv
      · exact completenessBody_sev rows r _ v hv

theorem flatMap_sev {α : Type} (rows : List α) (f : α → List Violation)
    (hf : ∀ r ∈ rows, ∀ v ∈ f r, v.severity = "ERROR") :
    ∀ v ∈ rows.flatMap f, v.severity = "ERROR" := by
  intro v hv
  rcases List.mem_flatMap.mp hv with ⟨r, hr, hvr⟩
  exact hf r hr v hvr

/-- C9: every violation produced by `lint`, in either mode and for any batch,
has severity `ERROR`; hence the WARN count over the output is `0` and the
ERROR count equals the total violation count. -/
theorem c9_only_errors (L : Linter) :
    (∀ v ∈ lint L, v.severity = "ERROR") ∧
    (lint L).countP (fun v => v.severity == "WARN") = 0 ∧
    (lint L).countP (fun v => v.severity == "ERROR") = (lint L).length := by
  have hmain : ∀ v ∈ lint L, v.severity = "ERROR" := by
    show AllErr (lint L)
    unfold lint
    refine allErr_append (allErr_append (allErr_append (allErr_append (allErr_append
      (allErr_append (allErr_append (allErr_append ?_ ?_) ?_) ?_) ?_) ?_) ?_) ?_)
      (allErr_ite ?_ allErr_nil)
    · exact flatMap_sev _ _ (fun r _ => requiredRow_sev r)
    · exact flatMap_sev _ _ (fun r _ => codeFormatRow_sev r)
    · exact fun v hv => checkUniquenessAux_sev L.rows [] v hv
    · exact flatMap_sev _ _ (fun r _ => scopeRow_sev r)
    · exact flatMap_sev _ _ (fun r _ => typesRefRow_sev L.resolver r)
    · exact flatMap_sev _ _ (fun r _ => unitRow_sev r)
    · exact flatMap_sev _ _ (fun r _ => identifierRow_sev L.resolver r)
    · exact flatMap_sev _ _ (fun r _ => hierarchyRow_sev L.resolver.idx r)
    · exact flatMap_sev _ _ (fun r _ => completenessRow_sev L.resolver L.rows r)
  refine ⟨hmain, ?_, ?_⟩
  · rw [List.countP_eq_zero]
    intro v hv
    rw [hmain v hv]
    decide
  · rw [List.countP_eq_length]
    intro v hv
    rw [hmain v hv]
    decide

theorem c9_witness :
    (⟨"ERROR", "BASIC_REQUIRED_MISSING", "missing required field: tenant_id",
      "", "", "tenant_id", ""⟩ : Violation).severity = "ERROR" :=
  (c9_only_errors (Linter.mk "import"
      [⟨"", 0, "", "", "", "", "", "", "", "", "", ""⟩]
      ⟨buildIndex [⟨"", 0, "", "", "", "", "", "", "", "", "", ""⟩], 5⟩)).1
    ⟨"ERROR", "BASIC_REQUIRED_MISSING", "missing required field: tenant_id",
      "", "", "tenant_id", ""⟩ (by decide)

-- ----------------------------
-- Theorems: reference chains (C1)
-- ----------------------------

/-- Last element of a chain, `""` for the empty chain. -/
def lastOf (codes : List String) : String := codes.getLast?.getD ""

/-- `a`'s row exists in the tenant, is an active feature, and its (stripped)
`value_type` is exactly the reference `ref:b`. -/
def linksToB (res : Resolver) (tenant a b : String) : Bool :=
  match res.idx (tenant, a) with
  | some row =>
    decide (row.object_type = "feature") && decide (row.status = "active") &&
      decide (typerefGroup (pyStrip row.value_type) = some b)
  | none => false

/-- `a`'s row exists in the tenant, is an active feature, and its (stripped)
`value_type` is non-empty and not a reference: the chain terminates here. -/
def terminalB (res : Resolver) (tenant a : String) : Bool :=
  match res.idx (tenant, a) with
  | some row =>
    decide (row.object_type = "feature") && decide (row.status = "active") &&
      decide (pyStrip row.value_type ≠ "") &&
      decide (typerefGroup (pyStrip row.value_type) = none)
  | none => false

/-- The stripped `value_type` of the row at a code (the resolved expression a
terminating chain yields). -/
def resolvedValueAt (res : Resolver) (tenant a : String) : String :=
  match res.idx (tenant, a) with
  | some row => pyStrip row.value_type
  | none => ""

/-- The `code` field of the row at a code (the `canonical_code` of the
result). -/
def canonicalCodeAt (res : Resolver) (tenant a : String) : String :=
  match res.idx (tenant, a) with
  | some row => row.code
  | none => ""

theorem typerefGroup_some_ne_empty {s x : String} (h : typerefGroup s = some x) :
    ¬ s = "" := by
  intro he
  rw [he] at h
  exact Option.noConfusion h

theorem contains_false_of_not_mem {l : List String} {x : String} (h : x ∉ l) :
    ¬ l.contains x = true :=
  fun hc => h (List.mem_of_elem_eq_true hc)

theorem chainAux_success (res : Resolver) (tenant vt : String) :
    ∀ (rest : List String) (c : String) (fuel : Nat) (seen : List String),
      List.Chain' (fun a b => linksToB res tenant a b = true) (c :: rest) →
      (c :: rest).Nodup →
      (∀ x ∈ c :: rest, x ∉ seen) →
      terminalB res tenant (lastOf (c :: rest)) = true →
      rest.length < fuel →
      resolveRefAux res tenant vt fuel seen c =
        Except.ok ⟨vt, resolvedValueAt res tenant (lastOf (c :: rest)),
          canonicalCodeAt res tenant (lastOf (c :: rest)), seen ++ (c :: rest)⟩ := by
  intro rest
  induction rest with
  | nil =>
    intro c fuel seen hchain hnodup hdisj hterm hlen
    cases fuel with
    | zero => exact absurd hlen (Nat.not_lt_zero _)
    | succ f =>
      have hterm2 : terminalB res tenant c = true := hterm
      unfold resolveRefAux
      rw [if_neg (contains_false_of_not_mem (hdisj c (List.mem_singleton.mpr rfl)))]
      cases hrow : res.idx (tenant, c) with
      | none => rw [terminalB, hrow] at hterm2; exact Bool.noConfusion hterm2
      | some row =>
        rw [terminalB, hrow] at hterm2
        simp only [Bool.and_eq_true, decide_eq_true_eq] at hterm2
        obtain ⟨⟨⟨h1, h2⟩, h3⟩, h4⟩ := hterm2
        simp only [hrow]
        rw [if_neg (not_not_intro h1), if_neg (not_not_intro h2), if_neg h3]
        simp only [h4]
        show _ = Except.ok (⟨vt, resolvedValueAt res tenant (lastOf [c]),
          canonicalCodeAt res tenant (lastOf [c]), seen ++ [c]⟩ : ResolvedType)
        have hval : resolvedValueAt res tenant (lastOf [c]) = pyStrip row.value_type := by
          show resolvedValueAt res tenant c = pyStrip row.value_type
          rw [resolvedValueAt, hrow]
        have hcode : canonicalCodeAt res tenant (lastOf [c]) = row.code := by
          show canonicalCodeAt res tenant c = row.code
          rw [canonicalCodeAt, hrow]
        rw [hval, hcode]
  | cons c2 rest2 ih =>
    intro c fuel seen hchain hnodup hdisj hterm hlen
    cases fuel with
    | zero => exact absurd hlen (Nat.not_lt_zero _)
    | succ f =>
      have hlink : linksToB res tenant c c2 = true := (List.chain'_cons.mp hchain).1
      cases hrow : res.idx (tenant, c) with
      | none => rw [linksToB, hrow] at hlink; exact Bool.noConfusion hlink
      | some row =>
        rw [linksToB, hrow] at hlink
        simp only [Bool.and_eq_true, decide_eq_true_eq] at hlink
        obtain ⟨⟨h1, h2⟩, hg⟩ := hlink
        unfold resolveRefAux
        rw [if_neg (contains_false_of_not_mem (hdisj c (List.mem_cons_self c _)))]
        simp only [hrow]
        rw [if_neg (not_not_intro h1), if_neg (not_not_intro h2),
          if_neg (typerefGroup_some_ne_empty hg)]
        simp only [hg]
        have hnodup2 := List.nodup_cons.mp hnodup
        have hstep := ih c2 f (seen ++ [c]) (List.chain'_cons.mp hchain).2 hnodup2.2
          (by
            intro x hx
            rw [List.mem_append]
            rintro (h | h)
            · exact hdisj x (List.mem_cons_of_mem c hx) h
            · rw [List.mem_singleton.mp h] at hx
              exact hnodup2.1 hx)
          (by
            have : lastOf (c :: c2 :: rest2) = lastOf (c2 :: rest2) := by
              unfold lastOf
              rw [List.getLast?_cons_cons]
            rw [← this]
            exact hterm)
          (by simpa using Nat.lt_of_succ_lt_succ hlen)
        rw [hstep]
        have hlast : lastOf (c :: c2 :: rest2) = lastOf (c2 :: rest2) := by
          unfold lastOf
          rw [List.getLast?_cons_cons]
        rw [hlast, List.append_assoc, List.singleton_append]

theorem chainAux_toodeep (res : Resolver) (tenant vt : String) :
    ∀ (rest : List String) (c : String) (fuel : Nat) (seen : List String),
      List.Chain' (fun a b => linksToB res tenant a b = true) (c :: rest) →
      (c :: rest).Nodup →
      (∀ x ∈ c :: rest, x ∉ seen) →
      (c :: rest).length = fuel + 1 →
      ∃ v, resolveRefAux res tenant vt fuel seen c = Except.error v ∧
        v.rule_id = "TYPE_REF_TOO_DEEP" := by
  intro rest
  induction rest with
  | nil =>
    intro c fuel seen _ _ _ hlen
    have hf : fuel = 0 := by simpa using hlen.symm
    rw [hf]
    exact ⟨_, rfl, rfl⟩
  | cons c2 rest2 ih =>
    intro c fuel seen hchain hnodup hdisj hlen
    cases fuel with
    | zero => simp at hlen
    | succ f =>
      have hlink : linksToB res tenant c c2 = true := (List.chain'_cons.mp hchain).1
      cases hrow : res.idx (tenant, c) with
      | none => rw [linksToB, hrow] at hlink; exact Bool.noConfusion hlink
      | some row =>
        rw [linksToB, hrow] at hlink
        simp only [Bool.and_eq_true, decide_eq_true_eq] at hlink
        obtain ⟨⟨h1, h2⟩, hg⟩ := hlink
        unfold resolveRefAux
        rw [if_neg (contains_false_of_not_mem (hdisj c (List.mem_cons_self c _)))]
        simp only [hrow]
        rw [if_neg (not_not_intro h1), if_neg (not_not_intro h2),
          if_neg (typerefGroup_some_ne_empty hg)]
        simp only [hg]
        have hnodup2 := List.nodup_cons.mp hnodup
        exact ih c2 f (seen ++ [c]) (List.chain'_cons.mp hchain).2 hnodup2.2
          (by
            intro x hx
            rw [List.mem_append]
            rintro (h | h)
            · exact hdisj x (List.mem_cons_of_mem c hx) h
            · rw [List.mem_singleton.mp h] at hx
              exact hnodup2.1 hx)
          (by simpa using hlen)

theorem chainAux_cycle (res : Resolver) (tenant vt : String) :
    ∀ (rest : List String) (c d : String) (fuel : Nat) (seen : List String),
      List.Chain' (fun a b => linksToB res tenant a b = true) ((c :: rest) ++ [d]) →
      (c :: rest).Nodup →
      (∀ x ∈ c :: rest, x ∉ seen) →
      d ∈ seen ++ (c :: rest) →
      (c :: rest).length + 1 ≤ fuel →
      ∃ v, resolveRefAux res tenant vt fuel seen c = Except.error v ∧
        v.rule_id = "TYPE_REF_CYCLE" := by
  intro rest
  induction rest with
  | nil =>
    intro c d fuel seen hchain hnodup hdisj hd hlen
    match fuel, hlen with
    | f + 2, _ =>
      have hlink : linksToB res tenant c d = true := (List.chain'_cons.mp hchain).1
      cases hrow : res.idx (tenant, c) with
      | none => rw [linksToB, hrow] at hlink; exact Bool.noConfusion hlink
      | some row =>
        rw [linksToB, hrow] at hlink
        simp only [Bool.and_eq_true, decide_eq_true_eq] at hlink
        obtain ⟨⟨h1, h2⟩, hg⟩ := hlink
        unfold resolveRefAux
        rw [if_neg (contains_false_of_not_mem (hdisj c (List.mem_singleton.mpr rfl)))]
        simp only [hrow]
        rw [if_neg (not_not_intro h1), if_neg (not_not_intro h2),
          if_neg (typerefGroup_some_ne_empty hg)]
        simp only [hg]
        unfold resolveRefAux
        rw [if_pos (List.elem_eq_true_of_mem hd)]
        exact ⟨_, rfl, rfl⟩
  | cons c2 rest2 ih =>
    intro c d fuel seen hchain hnodup hdisj hd hlen
    cases fuel with
    | zero => simp at hlen
    | succ f =>
      have hlink : linksToB res tenant c c2 = true := (List.chain'_cons.mp hchain).1
      cases hrow : res.idx (tenant, c) with
      | none => rw [linksToB, hrow] at hlink; exact Bool.noConfusion hlink
      | some row =>
        rw [linksToB, hrow] at hlink
        simp only [Bool.and_eq_true, decide_eq_true_eq] at hlink
        obtain ⟨⟨h1, h2⟩, hg⟩ := hlink
        unfold resolveRefAux
        rw [if_neg (contains_false_of_not_mem (hdisj c (List.mem_cons_self c _)))]
        simp only [hrow]
        rw [if_neg (not_not_intro h1), if_neg (not_not_intro h2),
          if_neg (typerefGroup_some_ne_empty hg)]
        simp only [hg]
        have hnodup2 := List.nodup_cons.mp hnodup
        refine ih c2 d f (seen ++ [c]) (List.chain'_cons.mp hchain).2 hnodup2.2
          (by
            intro x hx
            rw [List.mem_append]
            rintro (h | h)
            · exact hdisj x (List.mem_cons_of_mem c hx) h
            · rw [List.mem_singleton.mp h] at hx
              exact hnodup2.1 hx)
          (by
            rw [List.append_assoc, List.singleton_append]
            exact hd)
          (by simpa using hlen)

/-- C1: let the input be a reference `ref:c0` and `c0 :: rest` a chain of
distinct codes in which each code's row is an active feature whose stripped
`value_type` references the next code.  (a) If the chain terminates — its last
row's type is non-empty and not a reference — and visits at most
`max_ref_depth` codes, resolution succeeds with that last row's type, code and
the full chain.  (b) If an acyclic chain visits `max_ref_depth + 1` codes,
resolution fails with `TYPE_REF_TOO_DEEP`.  (c) If the chain continues to a
code `d` already visited, within the depth limit, resolution fails with
`TYPE_REF_CYCLE`. -/
theorem c1_reference_chain (res : Resolver) (tenant vtIn c0 : String)
    (rest : List String)
    (hvt : typerefGroup (pyStrip vtIn) = some c0) :
    (List.Chain' (fun a b => linksToB res tenant a b = true) (c0 :: rest) →
      (c0 :: rest).Nodup →
      terminalB res tenant (lastOf (c0 :: rest)) = true →
      (c0 :: rest).length ≤ res.maxDepth →
      resolveSingleRef res tenant vtIn =
        Except.ok ⟨pyStrip vtIn, resolvedValueAt res tenant (lastOf (c0 :: rest)),
          canonicalCodeAt res tenant (lastOf (c0 :: rest)), c0 :: rest⟩) ∧
    (List.Chain' (fun a b => linksToB res tenant a b = true) (c0 :: rest) →
      (c0 :: rest).Nodup →
      (c0 :: rest).length = res.maxDepth + 1 →
      ∃ v, resolveSingleRef res tenant vtIn = Except.error v ∧
        v.rule_id = "TYPE_REF_TOO_DEEP") ∧
    (∀ d, List.Chain' (fun a b => linksToB res tenant a b = true)
        ((c0 :: rest) ++ [d]) →
      (c0 :: rest).Nodup →
      d ∈ c0 :: rest →
      (c0 :: rest).length + 1 ≤ res.maxDepth →
      ∃ v, resolveSingleRef res tenant vtIn = Except.error v ∧
        v.rule_id = "TYPE_REF_CYCLE") := by
  have hsingle : resolveSingleRef res tenant vtIn =
      resolveRefAux res tenant (pyStrip vtIn) res.maxDepth [] c0 := by
    unfold resolveSingleRef
    simp only [hvt]
  refine ⟨?_, ?_, ?_⟩
  · intro hchain hnodup hterm hlen
    rw [hsingle]
    have h := chainAux_success res tenant (pyStrip vtIn) rest c0 res.maxDepth []
      hchain hnodup (by intro x _ hx; exact absurd hx (List.not_mem_nil x)) hterm
      (by simpa using hlen)
    rw [h, List.nil_append]
  · intro hchain hnodup hlen
    rw [hsingle]
    exact chainAux_toodeep res tenant (pyStrip vtIn) rest c0 res.maxDepth []
      hchain hnodup (by intro x _ hx; exact absurd hx (List.not_mem_nil x))
      (by simpa using hlen)
  · intro d hchain hnodup hd hlen
    rw [hsingle]
    exact chainAux_cycle res tenant (pyStrip vtIn) rest c0 d res.maxDepth []
      hchain hnodup (by intro x _ hx; exact absurd hx (List.not_mem_nil x))
      (by rw [List.nil_append]; exact hd) hlen

/-- Chain rows for the C1 witness: `a → b → c → "string"`. -/
def c1rowA : Row :=
  ⟨"t", 1, "a", "A", "", "feature", "", "attribute", "ref:b", "", "active", "manual"⟩

def c1rowB : Row :=
  ⟨"t", 1, "b", "B", "", "feature", "", "attribute", "ref:c", "", "active", "manual"⟩

def c1rowC : Row :=
  ⟨"t", 1, "c", "C", "", "feature", "", "attribute", "string", "", "active", "manual"⟩

/-- Cycle rows for the C1 witness: `a → b → a`. -/
def c1rowA2 : Row :=
  ⟨"t", 1, "a", "A", "", "feature", "", "attribute", "ref:b", "", "active", "manual"⟩

def c1rowB2 : Row :=
  ⟨"t", 1, "b", "B", "", "feature", "", "attribute", "ref:a", "", "active", "manual"⟩

theorem c1_witness :
    resolveSingleRef (⟨buildIndex [c1rowA, c1rowB, c1rowC], 5⟩ : Resolver) "t" "ref:a" =
      Except.ok ⟨"ref:a", "string", "c", ["a", "b", "c"]⟩ ∧
    (∃ v, resolveSingleRef (⟨buildIndex [c1rowA, c1rowB, c1rowC], 2⟩ : Resolver) "t"
        "ref:a" = Except.error v ∧ v.rule_id = "TYPE_REF_TOO_DEEP") ∧
    (∃ v, resolveSingleRef (⟨buildIndex [c1rowA2, c1rowB2], 5⟩ : Resolver) "t"
        "ref:a" = Except.error v ∧ v.rule_id = "TYPE_REF_CYCLE") := by
  have hch1 : List.Chain' (fun a b =>
      linksToB (⟨buildIndex [c1rowA, c1rowB, c1rowC], 5⟩ : Resolver) "t" a b = true)
      ["a", "b", "c"] :=
    List.chain'_cons.mpr ⟨by decide,
      List.chain'_cons.mpr ⟨by decide, List.chain'_singleton "c"⟩⟩
  have hch2 : List.Chain' (fun a b =>
      linksToB (⟨buildIndex [c1rowA, c1rowB, c1rowC], 2⟩ : Resolver) "t" a b = true)
      ["a", "b", "c"] :=
    List.chain'_cons.mpr ⟨by decide,
      List.chain'_cons.mpr ⟨by decide, List.chain'_singleton "c"⟩⟩
  have hch3 : List.Chain' (fun a b =>
      linksToB (⟨buildIndex [c1rowA2, c1rowB2], 5⟩ : Resolver) "t" a b = true)
      (["a", "b"] ++ ["a"]) :=
    List.chain'_cons.mpr ⟨by decide,
      List.chain'_cons.mpr ⟨by decide, List.chain'_singleton "a"⟩⟩
  refine ⟨?_, ?_, ?_⟩
  · exact (c1_reference_chain ⟨buildIndex [c1rowA, c1rowB, c1rowC], 5⟩ "t" "ref:a"
      "a" ["b", "c"] (by decide)).1 hch1 (by decide) (by decide) (by decide)
  · exact (c1_reference_chain ⟨buildIndex [c1rowA, c1rowB, c1rowC], 2⟩ "t" "ref:a"
      "a" ["b", "c"] (by decide)).2.1 hch2 (by decide) (by decide)
  · exact (c1_reference_chain ⟨buildIndex [c1rowA2, c1rowB2], 5⟩ "t" "ref:a"
      "a" ["b"] (by decide)).2.2 "a" hch3 (by decide) (by decide) (by decide)

-- ----------------------------
-- Theorems: grammar equivalence (C5) — split/join support
-- ----------------------------

theorem splitChar_shape (sep : Char) (l : List Char) :
    ∃ p ps, splitChar sep l = p :: ps := by
  induction l with
  | nil => exact ⟨[], [], rfl⟩
  | cons c rest ih =>
    obtain ⟨p, ps, hp⟩ := ih
    unfold splitChar
    simp only [hp]
    by_cases hc : c = sep
    · rw [if_pos hc]
      exact ⟨[], p :: ps, rfl⟩
    · rw [if_neg hc]
      exact ⟨c :: p, ps, rfl⟩

theorem splitChar_sepfree (sep : Char) (l : List Char) :
    ∀ p ∈ splitChar sep l, ∀ c ∈ p, c ≠ sep := by
  induction l with
  | nil =>
    intro p hp c hc
    rw [List.mem_singleton.mp hp] at hc
    exact absurd hc (List.not_mem_nil c)
  | cons x rest ih =>
    intro p hp c hc
    obtain ⟨p0, ps, hsplit⟩ := splitChar_shape sep rest
    unfold splitChar at hp
    simp only [hsplit] at hp
    by_cases hx : x = sep
    · rw [if_pos hx] at hp
      rcases List.mem_cons.mp hp with h | h
      · rw [h] at hc
        exact absurd hc (List.not_mem_nil c)
      · exact ih p (hsplit ▸ h) c hc
    · rw [if_neg hx] at hp
      rcases List.mem_cons.mp hp with h | h
      · rw [h] at hc
        rcases List.mem_cons.mp hc with h2 | h2
        · rw [h2]; exact hx
        · exact ih p0 (hsplit ▸ List.mem_cons_self p0 ps) c h2
      · exact ih p (hsplit ▸ List.mem_cons_of_mem p0 h) c hc

theorem splitChar_of_sepfree (sep : Char) (l : List Char) (h : ∀ c ∈ l, c ≠ sep) :
    splitChar sep l = [l] := by
  induction l with
  | nil => rfl
  | cons x rest ih =>
    unfold splitChar
    simp only [ih (fun c hc => h c (List.mem_cons_of_mem x hc))]
    rw [if_neg (h x (List.mem_cons_self x rest))]

theorem splitChar_append_sep (sep : Char) (l2 : List Char) :
    ∀ l1 : List Char, (∀ c ∈ l1, c ≠ sep) →
      splitChar sep (l1 ++ sep :: l2) = l1 :: splitChar sep l2 := by
  intro l1
  induction l1 with
  | nil =>
    intro _
    obtain ⟨p, ps, hp⟩ := splitChar_shape sep l2
    rw [List.nil_append]
    conv_lhs => rw [splitChar]
    simp [hp]
  | cons x rest ih =>
    intro h
    rw [List.cons_append]
    conv_lhs => rw [splitChar]
    simp only [ih (fun c hc => h c (List.mem_cons_of_mem x hc))]
    rw [if_neg (h x (List.mem_cons_self x rest))]

theorem splitChar_joinC (sep : Char) :
    ∀ ps : List (List Char), ps ≠ [] → (∀ p ∈ ps, ∀ c ∈ p, c ≠ sep) →
      splitChar sep (joinC sep ps) = ps := by
  intro ps
  induction ps with
  | nil => intro h; exact absurd rfl h
  | cons p ps2 ih =>
    intro _ hfree
    cases ps2 with
    | nil =>
      show splitChar sep p = [p]
      exact splitChar_of_sepfree sep p (hfree p (List.mem_cons_self p []))
    | cons q ps3 =>
      show splitChar sep (p ++ sep :: joinC sep (q :: ps3)) = p :: q :: ps3
      rw [splitChar_append_sep sep _ p (hfree p (List.mem_cons_self p _)),
        ih (List.cons_ne_nil q ps3) (fun r hr => hfree r (List.mem_cons_of_mem p hr))]

theorem splitChar_two_of_any (sep : Char) (l : List Char)
    (h : l.any (fun c => c = sep) = true) :
    ∃ p q ps, splitChar sep l = p :: q :: ps := by
  induction l with
  | nil => simp at h
  | cons x rest ih =>
    obtain ⟨p, ps, hp⟩ := splitChar_shape sep rest
    unfold splitChar
    simp only [hp]
    by_cases hx : x = sep
    · rw [if_pos hx]
      exact ⟨[], p, ps, rfl⟩
    · rw [if_neg hx]
      have hr : rest.any (fun c => c = sep) = true := by
        simp only [List.any_cons, Bool.or_eq_true, decide_eq_true_eq] at h
        rcases h with h | h
        · exact absurd h hx
        · exact h
      obtain ⟨p2, q2, ps2, hp2⟩ := ih hr
      rw [hp] at hp2
      injection hp2 with h1 h2
      rw [h2]
      exact ⟨x :: p, q2, ps2, rfl⟩

theorem joinC_any_sep (sep : Char) (p q : List Char) (ps : List (List Char)) :
    (joinC sep (p :: q :: ps)).any (fun c => c = sep) = true := by
  show (p ++ sep :: joinC sep (q :: ps)).any (fun c => c = sep) = true
  rw [List.any_append]
  simp

theorem mem_stripList {c : Char} {l : List Char} (h : c ∈ stripList l) : c ∈ l := by
  unfold stripList stripRightL stripLeftL at h
  have h1 := (List.dropWhile_sublist (l := (l.dropWhile isPySpace).reverse)
    isPySpace).subset (List.mem_reverse.mp h)
  have h2 := (List.dropWhile_sublist (l := l) isPySpace).subset
    (List.mem_reverse.mp h1)
  exact h2

theorem string_mk_data (s : String) : (⟨s.data⟩ : String) = s := by
  cases s
  rfl

theorem map_mk_data (ts : List String) :
    (ts.map String.data).map (fun l => (⟨l⟩ : String)) = ts := by
  induction ts with
  | nil => rfl
  | cons t rest ih =>
    simp only [List.map_cons, ih, string_mk_data]

theorem splitUnionTerms_some {vt : String} {ts : List String}
    (h : splitUnionTerms vt = some ts) :
    vt.data.any (fun c => c = '|') = true ∧
    ts = (splitChar '|' vt.data).map (fun l => (⟨stripList l⟩ : String)) := by
  unfold splitUnionTerms at h
  split at h
  · split at h
    · exact Option.noConfusion h
    · exact ⟨by assumption, (Option.some.inj h).symm⟩
  · exact Option.noConfusion h

theorem splitUnionTerms_none_of_no_bar {vt : String}
    (h : vt.data.any (fun c => c = '|') = false) : splitUnionTerms vt = none := by
  unfold splitUnionTerms
  rw [h]
  rfl

theorem splitUnionTerms_sepfree {vt : String} {ts : List String}
    (h : splitUnionTerms vt = some ts) :
    ∀ t ∈ ts, ∀ c ∈ t.data, c ≠ '|' := by
  obtain ⟨_, hts⟩ := splitUnionTerms_some h
  intro t ht c hc
  rw [hts] at ht
  obtain ⟨p, hp, hpt⟩ := List.mem_map.mp ht
  rw [← hpt] at hc
  exact splitChar_sepfree '|' vt.data p hp c (mem_stripList hc)

theorem splitUnionTerms_two {vt : String} {ts : List String}
    (h : splitUnionTerms vt = some ts) : ∃ a b ts2, ts = a :: b :: ts2 := by
  obtain ⟨hany, hts⟩ := splitUnionTerms_some h
  obtain ⟨p, q, ps, hsplit⟩ := splitChar_two_of_any '|' vt.data hany
  rw [hts, hsplit]
  exact ⟨_, _, _, rfl⟩

theorem canonicalUnion_of_none {vt : String} (h : splitUnionTerms vt = none) :
    canonicalUnion vt = vt := by
  unfold canonicalUnion
  rw [h]

theorem canonicalUnion_of_some {vt : String} {ts : List String}
    (h : splitUnionTerms vt = some ts) : canonicalUnion vt = joinBarStr ts := by
  unfold canonicalUnion
  rw [h]

theorem joinBarStr_any (a b : String) (ts2 : List String) :
    (joinBarStr (a :: b :: ts2)).data.any (fun c => c = '|') = true := by
  show (joinC '|' (a.data :: b.data :: ts2.map String.data)).any (fun c => c = '|') = true
  exact joinC_any_sep '|' a.data b.data (ts2.map String.data)

theorem scalar_no_bar {s : String} (h : SCALAR_TYPES.contains s = true) :
    s.data.any (fun c => c = '|') = false := by
  have hm := List.mem_of_elem_eq_true h
  simp only [SCALAR_TYPES, List.mem_cons, List.not_mem_nil, or_false] at hm
  rcases hm with h | h | h | h | h | h <;> · rw [h]; decide

theorem canon_scalar_eq (vt : String)
    (h : SCALAR_TYPES.contains (canonicalUnion vt) = true) :
    canonicalUnion vt = vt ∧ SCALAR_TYPES.contains vt = true := by
  cases hsu : splitUnionTerms vt with
  | none =>
    have hc := canonicalUnion_of_none hsu
    refine ⟨hc, ?_⟩
    rw [← hc]
    exact h
  | some ts =>
    exfalso
    obtain ⟨a, b, ts2, hts⟩ := splitUnionTerms_two hsu
    have hcanon := canonicalUnion_of_some hsu
    have hbar : (canonicalUnion vt).data.any (fun c => c = '|') = true := by
      rw [hcanon, hts]
      exact joinBarStr_any a b ts2
    rw [scalar_no_bar h] at hbar
    exact Bool.noConfusion hbar

theorem canon_ident (vt : String)
    (h : IDENTIFIER_ALLOWED.contains (canonicalUnion vt) = true) :
    SCALAR_TYPES.contains vt = true ∨
      (vt.data.any (fun c => c = '|') = true ∧
        splitUnionTerms vt = some ["int", "string"]) := by
  have hm := List.mem_of_elem_eq_true h
  simp only [IDENTIFIER_ALLOWED, List.mem_cons, List.not_mem_nil, or_false] at hm
  rcases hm with hm | hm | hm
  · exact Or.inl (canon_scalar_eq vt (by rw [hm]; decide)).2
  · exact Or.inl (canon_scalar_eq vt (by rw [hm]; decide)).2
  · cases hsu : splitUnionTerms vt with
    | none =>
      exfalso
      have hc := canonicalUnion_of_none hsu
      rw [hc] at hm
      rw [hm] at hsu
      have hconc : splitUnionTerms "int|string" = some ["int", "string"] := by decide
      rw [hconc] at hsu
      exact Option.noConfusion hsu
    | some ts =>
      right
      have hany := (splitUnionTerms_some hsu).1
      have hfree := splitUnionTerms_sepfree hsu
      obtain ⟨a, b, ts2, hts⟩ := splitUnionTerms_two hsu
      have hcanon := canonicalUnion_of_some hsu
      rw [hcanon] at hm
      have hdata : joinC '|' (ts.map String.data) = "int|string".data :=
        congrArg String.data hm
      have hsplit : splitChar '|' (joinC '|' (ts.map String.data)) =
          ts.map String.data :=
        splitChar_joinC '|' (ts.map String.data)
          (by rw [hts]; simp)
          (by
            intro p hp c hc
            obtain ⟨t, ht, hpt⟩ := List.mem_map.mp hp
            rw [← hpt] at hc
            exact hfree t ht c hc)
      rw [hdata] at hsplit
      have hconc : splitChar '|' "int|string".data =
          ["int".data, "string".data] := by decide
      rw [hconc] at hsplit
      have hts2 : ts = ["int", "string"] := by
        have h2 := congrArg (List.map (fun l => (⟨l⟩ : String))) hsplit
        rw [map_mk_data] at h2
        rw [← h2]
        rfl
      exact ⟨hany, by rw [hts2]⟩

/-- C5: for every trimmed non-empty expression, `is_valid_value_type_expr`
accepts it iff the §4.2 grammar as worded by the spec does (`validPerSpec`):
a scalar, `json<object:S>` with a dot-path `S`, `json<array:T>`,
`ref:<code>`, or a union of scalars / bare atoms / type-references with all
sides non-empty after trim.  The code's extra front-door cases — the
canonicalized expression being a scalar or one of the identifier-allowed
forms — add nothing beyond those clauses. -/
theorem c5_grammar_equivalence (vt : String) (hstrip : pyStrip vt = vt)
    (_hne : vt ≠ "") :
    is_valid_value_type_expr vt = true ↔ validPerSpec vt = true := by
  unfold is_valid_value_type_expr validPerSpec
  rw [hstrip]
  constructor
  · intro h
    simp only [Bool.or_eq_true] at h ⊢
    rcases h with ((((h | h) | h) | h) | h) | h
    · exact Or.inl (Or.inl (Or.inl (Or.inl (canon_scalar_eq vt h).2)))
    · rcases canon_ident vt h with hs | ⟨hany, hsu⟩
      · exact Or.inl (Or.inl (Or.inl (Or.inl hs)))
      · refine Or.inr ?_
        rw [Bool.and_eq_true]
        refine ⟨hany, ?_⟩
        simp only [hsu]
        decide
    · exact Or.inl (Or.inl (Or.inl (Or.inr h)))
    · exact Or.inl (Or.inl (Or.inr h))
    · exact Or.inl (Or.inr h)
    · exact Or.inr h
  · intro h
    simp only [Bool.or_eq_true] at h ⊢
    rcases h with (((h | h) | h) | h) | h
    · refine Or.inl (Or.inl (Or.inl (Or.inl (Or.inl ?_))))
      have hnone := splitUnionTerms_none_of_no_bar (scalar_no_bar h)
      rw [canonicalUnion_of_none hnone]
      exact h
    · exact Or.inl (Or.inl (Or.inl (Or.inr h)))
    · exact Or.inl (Or.inl (Or.inr h))
    · exact Or.inl (Or.inr h)
    · exact Or.inr h

theorem c5_witness :
    pyStrip "json<object:a.b>" = "json<object:a.b>" ∧
    is_valid_value_type_expr "json<object:a.b>" = true :=
  ⟨by decide,
   (c5_grammar_equivalence "json<object:a.b>" (by decide) (by decide)).mpr
     (by decide)⟩

end BizMeta
